import Mathlib

/-!
# Adaptive Matrix Factorization (`src/core/AMF.cpp`)

A shallow embedding of the training routine `AMF` and its helpers
(`loss`, `sigmoid`, `grad_sigmoid`, `getPredMatrix`, `dotProduct`).

Modelling conventions.

* `double` values are elements of a linearly ordered field `α` (idealised, exact
  arithmetic); `exp` of `<cmath>` is a parameter `exp : α → α`, so every
  definition is executable as soon as `α` and `exp` are (for instance over `ℚ`),
  and theorems about the real exponential instantiate `α := ℝ`, `exp := Real.exp`.
* A `double **` matrix view produced by `vector2Matrix` is a function
  `Nat → Nat → α` (row, column); the separate buffers `Udata`, `Sdata`,
  `predData`, `removedData` are separate functions.  A `vector<double>` is a
  function `Nat → α`.  Sizes and loop bounds (`int` in the source) are `Nat`.
* Division is the field's (total) division; where the source divides by zero, IEEE
  arithmetic yields an infinity or a NaN instead of the field's `0`.
* Where rounding decides a property, the per-sample step is stated a second time over a
  model of IEEE-754 binary64 (`Double`, `sampleStep_f64` and the other `_f64` definitions),
  with the same expressions in the same order; `exp` is again a parameter.
* `random_shuffle` is a parameter `shuffle : Nat → List (Sample α) → List (Sample α)`:
  `shuffle iter l` is the order in which the call at epoch `iter` leaves the
  vector `l`.
-/

namespace AdaptiveMF

/-- The C loop `for (int k = 0; k < n; k++) body`, threading the mutable state
through the iterations `k = 0, 1, ..., n - 1` in this order. -/
def forLoop {σ : Type} (n : Nat) (body : Nat → σ → σ) (init : σ) : σ :=
  match n with
  | 0 => init
  | m + 1 => body m (forLoop m body init)

/-- The type `SAMPLE = pair<pair<int, int>, double>`: row `i`, column `j`, observed value `r`. -/
structure Sample (α : Type) where
  i : Nat
  j : Nat
  r : α
deriving DecidableEq

/-- The mutable data of a run of `AMF`: latent matrices, the confidence vectors
`eu`, `es`, the prediction buffer, and the lines written to `cout`
(epoch index and loss value of each progress record). -/
structure State (α : Type) where
  U : Nat → Nat → α
  S : Nat → Nat → α
  eu : Nat → α
  es : Nat → α
  predMatrix : Nat → Nat → α
  out : List (Nat × α)

section Defs

variable {α : Type} [LinearOrderedField α]

/-- The constant `EPS = 1e-10`. -/
def EPS : α := 1 / 10 ^ 10

/-- The helper `sqr(x) = x * x`. -/
def sqr (x : α) : α := x * x

/-- The function `sigmoid(x) = 1 / (1 + exp(-x))`. -/
def sigmoid (exp : α → α) (x : α) : α := 1 / (1 + exp (-x))

/-- The function `grad_sigmoid(x) = 1 / (2 + exp(-x) + exp(x))`. -/
def grad_sigmoid (exp : α → α) (x : α) : α := 1 / (2 + exp (-x) + exp x)

/-- The function `dotProduct(vec1, vec2, len)`: accumulates `vec1[i] * vec2[i]` for `i < len`. -/
def dotProduct (vec1 vec2 : Nat → α) (len : Nat) : α :=
  forLoop len (fun i product => product + vec1 i * vec2 i) 0

/-- The assignment `m[i][j] = v` on a matrix view. -/
def setCell (m : Nat → Nat → α) (i j : Nat) (v : α) : Nat → Nat → α :=
  fun a b => if a = i ∧ b = j then v else m a b

/-- The assignment `v[i] = x` on a vector. -/
def setEntry (v : Nat → α) (i : Nat) (x : α) : Nat → α :=
  fun a => if a = i then x else v a

/-- The function `getPredMatrix`: two nested loops over the cells; a cell is rewritten
when `flag == true || fabs(removedMatrix[i][j]) > EPS`. Returns the prediction buffer. -/
def getPredMatrix (exp : α → α) (flag : Bool) (removedMatrix U S : Nat → Nat → α)
    (numUser numService dim : Nat) (predMatrix : Nat → Nat → α) : Nat → Nat → α :=
  forLoop numUser (fun i pm =>
    forLoop numService (fun j pm =>
      if flag = true ∨ |removedMatrix i j| > EPS then
        setCell pm i j (sigmoid exp (dotProduct (U i) (S j) dim))
      else pm) pm) predMatrix

/-- The function `loss`: the accumulator runs over the observed cells in row-major order
(`0.5` is written `1 / 2`), then over `k`, adding the terms of column `k` of `U` and of `S`. -/
def loss (U S removedMatrix predMatrix : Nat → Nat → α) (lmda : α)
    (numUser numService dim : Nat) : α :=
  let cost := forLoop numUser (fun i loss =>
    forLoop numService (fun j loss =>
      if |removedMatrix i j| > EPS then
        loss + 1 / 2 * sqr ((removedMatrix i j - predMatrix i j) / removedMatrix i j)
      else loss) loss) 0
  forLoop dim (fun k loss =>
    forLoop numService (fun j loss => loss + 1 / 2 * lmda * sqr (S j k))
      (forLoop numUser (fun i loss => loss + 1 / 2 * lmda * sqr (U i k)) loss)) cost

/-- Lines 38-45 of `AMF`: the sample vector built by `push_back` while scanning the
observation matrix. -/
def extractSamples (removedMatrix : Nat → Nat → α) (numUser numService : Nat) :
    List (Sample α) :=
  forLoop numUser (fun i samples =>
    forLoop numService (fun j samples =>
      if |removedMatrix i j| > EPS then samples ++ [⟨i, j, removedMatrix i j⟩]
      else samples) samples) []

/-- One iteration `k` of the gradient loop (lines 70-77) on the pair `(U, S)`:
`gradU` and `gradS` are computed, then `U[i][k]` and `S[j][k]` are decremented. -/
def gradStep (exp : α → α) (lmda eta wi wj pValue rValue uv : α) (i j : Nat) (k : Nat)
    (US : (Nat → Nat → α) × (Nat → Nat → α)) : (Nat → Nat → α) × (Nat → Nat → α) :=
  let gradU := wi * (pValue - rValue) * grad_sigmoid exp uv * US.2 j k / sqr rValue
    + lmda * US.1 i k
  let gradS := wj * (pValue - rValue) * grad_sigmoid exp uv * US.1 i k / sqr rValue
    + lmda * US.2 j k
  (setCell US.1 i k (US.1 i k - eta * gradU), setCell US.2 j k (US.2 j k - eta * gradS))

/-- Line 63: the relative error `eij = fabs(pValue - rValue) / rValue`. -/
def eij (pValue rValue : α) : α := |pValue - rValue| / rValue

/-- Line 64: the weight `wi = eu[i] / (eu[i] + es[j])`, as a function of the two
confidence values read. -/
def wi (eui esj : α) : α := eui / (eui + esj)

/-- Line 65: the weight `wj = es[j] / (eu[i] + es[j])`, as a function of the two
confidence values read. -/
def wj (eui esj : α) : α := esj / (eui + esj)

/-- Lines 55-77 of `AMF`: the processing of one sample (confidence update, then the
gradient loop over `k`). -/
def sampleStep (exp : α → α) (dim : Nat) (lmda eta beta : α) (spInstance : Sample α)
    (st : State α) : State α :=
  let i := spInstance.i
  let j := spInstance.j
  let rValue := spInstance.r
  let uv := dotProduct (st.U i) (st.S j) dim
  let pValue := sigmoid exp uv
  let eijV := eij pValue rValue
  let wiV := wi (st.eu i) (st.es j)
  let wjV := wj (st.eu i) (st.es j)
  let eu1 := setEntry st.eu i (beta * wiV * eijV + (1 - beta * wiV) * st.eu i)
  let es1 := setEntry st.es j (beta * wjV * eijV + (1 - beta * wjV) * st.es j)
  let US := forLoop dim (gradStep exp lmda eta wiV wjV pValue rValue uv i j) (st.U, st.S)
  { st with U := US.1, S := US.2, eu := eu1, es := es1 }

/-- Lines 80-91 of `AMF`: the progress record. The counter `iter * samples.size() + s`
is computed in `size_t` (taken to be 64 bits wide). -/
def debugStep (exp : α → α) (removedMatrix : Nat → Nat → α) (numUser numService dim : Nat)
    (lmda : α) (debugMode : Bool) (iter size s : Nat) (st : State α) : State α :=
  if debugMode = true then
    if ((iter * size + s) % 2 ^ 64) % 10000 = 0 then
      let pm := getPredMatrix exp false removedMatrix st.U st.S numUser numService dim
        st.predMatrix
      let lossValue := loss st.U st.S removedMatrix pm lmda numUser numService dim
      { st with predMatrix := pm, out := st.out ++ [(iter, lossValue)] }
    else st
  else st

/-- The loop `for (int s = 0; s < samples.size(); s++)` of epoch `iter`: `size` is
`samples.size()`, the list argument holds `samples[s], samples[s+1], ...`. -/
def epochLoop (exp : α → α) (removedMatrix : Nat → Nat → α) (numUser numService dim : Nat)
    (lmda eta beta : α) (debugMode : Bool) (iter size : Nat) :
    Nat → List (Sample α) → State α → State α
  | _, [], st => st
  | s, spInstance :: rest, st =>
    epochLoop exp removedMatrix numUser numService dim lmda eta beta debugMode iter size (s + 1)
      rest
      (debugStep exp removedMatrix numUser numService dim lmda debugMode iter size s
        (sampleStep exp dim lmda eta beta spInstance st))

/-- The loop `for (int iter = 0; iter < maxIter; iter++)`: the sample vector is shuffled
in place, then one epoch runs over it. The loop state is the sample vector and the `State`. -/
def trainLoop (exp : α → α) (shuffle : Nat → List (Sample α) → List (Sample α))
    (removedMatrix : Nat → Nat → α) (numUser numService dim : Nat)
    (lmda eta beta : α) (debugMode : Bool) (maxIter : Nat)
    (init : List (Sample α) × State α) : List (Sample α) × State α :=
  forLoop maxIter (fun iter p =>
    let samples := shuffle iter p.1
    (samples, epochLoop exp removedMatrix numUser numService dim lmda eta beta debugMode
      iter samples.length 0 samples p.2)) init

/-- The state in which the training loop of `AMF` starts: the caller's `U`, `S` and
prediction buffer, confidence vectors filled with `1`, nothing printed. -/
def initState (U S predMatrix : Nat → Nat → α) : State α :=
  { U := U, S := S, eu := fun _ => 1, es := fun _ => 1, predMatrix := predMatrix, out := [] }

/-- The routine `AMF`: sample extraction, training loop, final `getPredMatrix(true, ...)`.
The result holds the output buffers `U`, `S`, `predMatrix` (and, for inspection, the
final confidence vectors and the printed records). -/
def AMF (exp : α → α) (shuffle : Nat → List (Sample α) → List (Sample α))
    (removedMatrix : Nat → Nat → α) (numUser numService dim : Nat) (lmda : α)
    (maxIter : Nat) (eta beta : α) (debugMode : Bool) (U S predMatrix : Nat → Nat → α) :
    State α :=
  let samples := extractSamples removedMatrix numUser numService
  let st := (trainLoop exp shuffle removedMatrix numUser numService dim lmda eta beta
    debugMode maxIter (samples, initState U S predMatrix)).2
  { st with predMatrix :=
      getPredMatrix exp true removedMatrix st.U st.S numUser numService dim st.predMatrix }

/-- Specification of the sample list, in the words of the spec: the cells `(i, j)` with
`|M[i][j]| > eps`, rows in ascending order and, within a row, columns in ascending order,
each cell with its value. -/
def samplesSpec (M : Nat → Nat → α) (numUser numService : Nat) : List (Sample α) :=
  (List.range numUser).flatMap fun i =>
    ((List.range numService).filter fun j => decide (|M i j| > EPS)).map
      fun j => ⟨i, j, M i j⟩

/-- The observation matrix `[[0.5, 0], [0, 0.8]]` of the scenario of section 8 of the spec
(cells outside the `2 × 2` range are never read). -/
def scenarioMatrix : Nat → Nat → α :=
  fun i j => if i = 0 ∧ j = 0 then 1 / 2 else if i = 1 ∧ j = 1 then 4 / 5 else 0

/-- The initial latent matrices `[[1.0], [1.0]]` of the scenario of section 8 of the spec. -/
def scenarioLatent : Nat → Nat → α := fun _ _ => 1

/-- The part of the state that training reads and writes (`U`, `S`, `eu`, `es`): the
prediction buffer and the printed records are blanked. -/
def trainingPart (st : State α) : State α :=
  { st with predMatrix := fun _ _ => 0, out := [] }

end Defs

/-! ## The same per-sample step in IEEE-754 binary64 arithmetic

The definitions above compute in exact arithmetic. The block below models the C type
`double` itself (round to nearest, ties to even, subnormals, overflow to infinity, signed
zeros, NaN) and repeats the per-sample step of `AMF` (lines 55-77) over it, with the same
expressions in the same order. -/

/-- The C type `double` (IEEE-754 binary64): a finite value `± mag` (`mag ≥ 0`; a zero keeps
its sign), an infinity with its sign, or a NaN. -/
inductive Double where
  | finite (neg : Bool) (mag : ℚ)
  | infinite (neg : Bool)
  | nan
deriving DecidableEq

/-- Round a rational to the nearest integer, ties to the even one. -/
def Double.roundHalfEven (x : ℚ) : ℤ :=
  if x - ⌊x⌋ < 1 / 2 then ⌊x⌋
  else if 1 / 2 < x - ⌊x⌋ then ⌊x⌋ + 1
  else if ⌊x⌋ % 2 = 0 then ⌊x⌋ else ⌊x⌋ + 1

/-- The spacing of the doubles in the binade of `mag > 0`: `2 ^ (e - 52)` with
`e = max (floor (log2 mag)) (-1022)` (below `2 ^ (-1022)` the spacing is `2 ^ (-1074)`). -/
def Double.quantum (mag : ℚ) : ℚ := 2 ^ (max (Int.log 2 mag) (-1022) - 52)

/-- Rounding of an exact result of magnitude `mag ≥ 0` and sign `neg` to a double: to the
nearest multiple of the spacing, ties to even; a rounded magnitude of `2 ^ 1024` or more
overflows to the infinity of that sign, a zero keeps the sign. -/
def Double.round (neg : Bool) (mag : ℚ) : Double :=
  if mag = 0 then Double.finite neg 0
  else if (Double.roundHalfEven (mag / Double.quantum mag) : ℚ) * Double.quantum mag < 2 ^ 1024 then
    Double.finite neg ((Double.roundHalfEven (mag / Double.quantum mag) : ℚ) * Double.quantum mag)
  else Double.infinite neg

/-- The rational value of a sign and a magnitude. -/
def Double.signed (neg : Bool) (mag : ℚ) : ℚ := if neg = true then -mag else mag

/-- Unary minus on doubles: the sign is flipped. -/
def Double.neg : Double → Double
  | Double.finite s m => Double.finite (!s) m
  | Double.infinite s => Double.infinite (!s)
  | Double.nan => Double.nan

/-- The function `fabs`: the sign is cleared. -/
def Double.fabs : Double → Double
  | Double.finite _ m => Double.finite false m
  | Double.infinite _ => Double.infinite false
  | Double.nan => Double.nan

/-- Addition of doubles: the exact sum is rounded; an exact zero sum is `-0` only when both
operands are negative (zeros); `inf + (-inf)` is NaN. -/
def Double.add : Double → Double → Double
  | Double.finite s a, Double.finite t b =>
    if Double.signed s a + Double.signed t b = 0 then Double.finite (s && t) 0
    else Double.round (decide (Double.signed s a + Double.signed t b < 0))
      |Double.signed s a + Double.signed t b|
  | Double.finite _ _, Double.infinite t => Double.infinite t
  | Double.infinite s, Double.finite _ _ => Double.infinite s
  | Double.infinite s, Double.infinite t => if s = t then Double.infinite s else Double.nan
  | Double.finite _ _, Double.nan => Double.nan
  | Double.infinite _, Double.nan => Double.nan
  | Double.nan, _ => Double.nan

/-- Subtraction of doubles: `x - y` is `x + (-y)`. -/
def Double.sub (x y : Double) : Double := Double.add x (Double.neg y)

/-- Multiplication of doubles: the exact product is rounded, the sign is the exclusive or
of the signs; `0 * inf` is NaN. -/
def Double.mul : Double → Double → Double
  | Double.finite s a, Double.finite t b => Double.round (xor s t) (a * b)
  | Double.finite s a, Double.infinite t => if a = 0 then Double.nan else Double.infinite (xor s t)
  | Double.infinite s, Double.finite t b => if b = 0 then Double.nan else Double.infinite (xor s t)
  | Double.infinite s, Double.infinite t => Double.infinite (xor s t)
  | Double.finite _ _, Double.nan => Double.nan
  | Double.infinite _, Double.nan => Double.nan
  | Double.nan, _ => Double.nan

/-- Division of doubles: the exact quotient is rounded; `0 / 0` and `inf / inf` are NaN,
a nonzero value divided by a zero is an infinity. -/
def Double.div : Double → Double → Double
  | Double.finite s a, Double.finite t b =>
    if b = 0 then (if a = 0 then Double.nan else Double.infinite (xor s t))
    else Double.round (xor s t) (a / b)
  | Double.finite s _, Double.infinite t => Double.finite (xor s t) 0
  | Double.infinite s, Double.finite t _ => Double.infinite (xor s t)
  | Double.infinite _, Double.infinite _ => Double.nan
  | Double.finite _ _, Double.nan => Double.nan
  | Double.infinite _, Double.nan => Double.nan
  | Double.nan, _ => Double.nan

/-- The comparison `x < y` of doubles (false as soon as an operand is a NaN). -/
def Double.lt : Double → Double → Bool
  | Double.finite s a, Double.finite t b => decide (Double.signed s a < Double.signed t b)
  | Double.finite _ _, Double.infinite t => !t
  | Double.infinite s, Double.finite _ _ => s
  | Double.infinite s, Double.infinite t => s && !t
  | Double.finite _ _, Double.nan => false
  | Double.infinite _, Double.nan => false
  | Double.nan, _ => false

/-- Conversion of an integer constant (`0`, `1`, `2` in the source) to a double. -/
def Double.ofNat (n : Nat) : Double := Double.round false n

/-- The double denoted by a decimal constant of rational value `q` (such as `0.5`). -/
def Double.ofRat (q : ℚ) : Double := Double.round (decide (q < 0)) |q|

instance : Add Double := ⟨Double.add⟩

instance : Sub Double := ⟨Double.sub⟩

instance : Mul Double := ⟨Double.mul⟩

instance : Div Double := ⟨Double.div⟩

instance : Neg Double := ⟨Double.neg⟩

instance (n : Nat) : OfNat Double n := ⟨Double.ofNat n⟩

/-- The helper `sqr` in double arithmetic. -/
def sqr_f64 (x : Double) : Double := x * x

/-- The function `sigmoid` in double arithmetic; `exp` is the library function. -/
def sigmoid_f64 (exp : Double → Double) (x : Double) : Double := 1 / (1 + exp (-x))

/-- The function `grad_sigmoid` in double arithmetic. -/
def grad_sigmoid_f64 (exp : Double → Double) (x : Double) : Double :=
  1 / (2 + exp (-x) + exp x)

/-- The function `dotProduct` in double arithmetic. -/
def dotProduct_f64 (vec1 vec2 : Nat → Double) (len : Nat) : Double :=
  forLoop len (fun i product => product + vec1 i * vec2 i) 0

/-- The assignment `m[i][j] = v` on a matrix view of doubles. -/
def setCell_f64 (m : Nat → Nat → Double) (i j : Nat) (v : Double) : Nat → Nat → Double :=
  fun a b => if a = i ∧ b = j then v else m a b

/-- The assignment `v[i] = x` on a vector of doubles. -/
def setEntry_f64 (v : Nat → Double) (i : Nat) (x : Double) : Nat → Double :=
  fun a => if a = i then x else v a

/-- One iteration `k` of the gradient loop (lines 70-77) in double arithmetic. -/
def gradStep_f64 (exp : Double → Double) (lmda eta wi wj pValue rValue uv : Double)
    (i j : Nat) (k : Nat) (US : (Nat → Nat → Double) × (Nat → Nat → Double)) :
    (Nat → Nat → Double) × (Nat → Nat → Double) :=
  let gradU := wi * (pValue - rValue) * grad_sigmoid_f64 exp uv * US.2 j k / sqr_f64 rValue
    + lmda * US.1 i k
  let gradS := wj * (pValue - rValue) * grad_sigmoid_f64 exp uv * US.1 i k / sqr_f64 rValue
    + lmda * US.2 j k
  (setCell_f64 US.1 i k (US.1 i k - eta * gradU), setCell_f64 US.2 j k (US.2 j k - eta * gradS))

/-- Line 63 in double arithmetic: `eij = fabs(pValue - rValue) / rValue`. -/
def eij_f64 (pValue rValue : Double) : Double := Double.fabs (pValue - rValue) / rValue

/-- Line 64 in double arithmetic: `wi = eu[i] / (eu[i] + es[j])`. -/
def wi_f64 (eui esj : Double) : Double := eui / (eui + esj)

/-- Line 65 in double arithmetic: `wj = es[j] / (eu[i] + es[j])`. -/
def wj_f64 (eui esj : Double) : Double := esj / (eui + esj)

/-- Lines 55-77 of `AMF` in double arithmetic: the processing of one sample. -/
def sampleStep_f64 (exp : Double → Double) (dim : Nat) (lmda eta beta : Double)
    (spInstance : Sample Double) (st : State Double) : State Double :=
  let i := spInstance.i
  let j := spInstance.j
  let rValue := spInstance.r
  let uv := dotProduct_f64 (st.U i) (st.S j) dim
  let pValue := sigmoid_f64 exp uv
  let eijV := eij_f64 pValue rValue
  let wiV := wi_f64 (st.eu i) (st.es j)
  let wjV := wj_f64 (st.eu i) (st.es j)
  let eu1 := setEntry_f64 st.eu i (beta * wiV * eijV + (1 - beta * wiV) * st.eu i)
  let es1 := setEntry_f64 st.es j (beta * wjV * eijV + (1 - beta * wjV) * st.es j)
  let US := forLoop dim (gradStep_f64 exp lmda eta wiV wjV pValue rValue uv i j) (st.U, st.S)
  { st with U := US.1, S := US.2, eu := eu1, es := es1 }

/-- The state in which the training loop starts, in doubles: confidence vectors filled
with `1`. -/
def initState_f64 (U S predMatrix : Nat → Nat → Double) : State Double :=
  { U := U, S := S, eu := fun _ => 1, es := fun _ => 1, predMatrix := predMatrix, out := [] }

/-- A stand-in for the library function `exp` that is exact where the C standard fixes the
result (`exp(±0) = 1`, `exp(-inf) = +0`, `exp(+inf) = +inf`, NaN for NaN) and returns NaN
at every other argument; the run `halvingRun` evaluates `exp` at `±0` only. -/
def expAtZero : Double → Double
  | Double.finite _ m => if m = 0 then 1 else Double.nan
  | Double.infinite s => if s = true then 0 else Double.infinite false
  | Double.nan => Double.nan

/-- Initial user rows `U[i] = [1, -1]` of the underflow run. -/
def halvingU : Nat → Nat → Double := fun _ k => if k = 0 then 1 else -1

/-- Initial service rows `S[j] = [1, 1]` of the underflow run. -/
def halvingS : Nat → Nat → Double := fun _ _ => 1

/-- The state after `n` per-sample updates with the sample `(0, 0, 0.5)`, `dim = 2`,
`lmda = 0`, `eta = 0.125`, `beta = 1`, from `U[i] = [1, -1]`, `S[j] = [1, 1]` and all-ones
confidence vectors: what `AMF` computes in `n` epochs on the `1 × 1` observation matrix
`[[0.5]]`. -/
def halvingRun (exp : Double → Double) (n : Nat) : State Double :=
  forLoop n
    (fun _ st => sampleStep_f64 exp 2 0 (Double.ofRat (1 / 8)) 1 ⟨0, 0, Double.ofRat (1 / 2)⟩ st)
    (initState_f64 halvingU halvingS (fun _ _ => 0))

section Theorems

variable {α : Type} [LinearOrderedField α]

theorem forLoop_succ {σ : Type} (n : Nat) (body : Nat → σ → σ) (init : σ) :
    forLoop (n + 1) body init = body n (forLoop n body init) := rfl

theorem forLoop_zero {σ : Type} (body : Nat → σ → σ) (init : σ) :
    forLoop 0 body init = init := rfl

/-- Closed form of the gradient loop: after `n` iterations, exactly the cells `k < n` of
row `i` of `U` and of row `j` of `S` have been rewritten, each from the initial values. -/
theorem gradLoop_closed (exp : α → α) (lmda eta wi wj pValue rValue uv : α) (i j : Nat)
    (U S : Nat → Nat → α) (n : Nat) :
    forLoop n (gradStep exp lmda eta wi wj pValue rValue uv i j) (U, S) =
      ((fun a b => if a = i ∧ b < n then
          U i b - eta * (wi * (pValue - rValue) * grad_sigmoid exp uv * S j b / sqr rValue
            + lmda * U i b)
        else U a b),
       (fun a b => if a = j ∧ b < n then
          S j b - eta * (wj * (pValue - rValue) * grad_sigmoid exp uv * U i b / sqr rValue
            + lmda * S j b)
        else S a b)) := by
  induction n with
  | zero => simp [forLoop]
  | succ n ih =>
    rw [forLoop_succ, ih]
    refine Prod.ext ?_ ?_
    · funext a b
      simp only [gradStep, setCell, lt_irrefl, and_false, if_false]
      by_cases ha : a = i
      · by_cases hb : b = n
        · have h1 : b < n + 1 := by omega
          simp [ha, hb]
        · by_cases hlt : b < n
          · have h1 : b < n + 1 := by omega
            simp [ha, hb, hlt, h1]
          · have h1 : ¬ b < n + 1 := by omega
            simp [ha, hb, hlt, h1]
      · simp [ha]
    · funext a b
      simp only [gradStep, setCell, lt_irrefl, and_false, if_false]
      by_cases ha : a = j
      · by_cases hb : b = n
        · have h1 : b < n + 1 := by omega
          simp [ha, hb]
        · by_cases hlt : b < n
          · have h1 : b < n + 1 := by omega
            simp [ha, hb, hlt, h1]
          · have h1 : ¬ b < n + 1 := by omega
            simp [ha, hb, hlt, h1]
      · simp [ha]

/-- C1: after one sample `(i, j, r)` is processed, for every `k < dim` the entries
`U[i][k]` and `S[j][k]` are the simultaneous gradient update computed from the pre-update
`U`, `S`, `eu`, `es` (with `uv = U[i]·S[j]`, `p = sigmoid uv`, `wi = eu[i]/(eu[i]+es[j])`,
`wj = es[j]/(eu[i]+es[j])`). -/
theorem sampleStep_simultaneous_update (exp : α → α) (dim : Nat) (lmda eta beta : α)
    (sp : Sample α) (st : State α) (k : Nat) (hk : k < dim) :
    (sampleStep exp dim lmda eta beta sp st).U sp.i k =
        st.U sp.i k - eta *
          (st.eu sp.i / (st.eu sp.i + st.es sp.j)
              * (sigmoid exp (dotProduct (st.U sp.i) (st.S sp.j) dim) - sp.r)
              * grad_sigmoid exp (dotProduct (st.U sp.i) (st.S sp.j) dim)
              * st.S sp.j k / sp.r ^ 2
            + lmda * st.U sp.i k) ∧
    (sampleStep exp dim lmda eta beta sp st).S sp.j k =
        st.S sp.j k - eta *
          (st.es sp.j / (st.eu sp.i + st.es sp.j)
              * (sigmoid exp (dotProduct (st.U sp.i) (st.S sp.j) dim) - sp.r)
              * grad_sigmoid exp (dotProduct (st.U sp.i) (st.S sp.j) dim)
              * st.U sp.i k / sp.r ^ 2
            + lmda * st.S sp.j k) := by
  simp only [sampleStep, gradLoop_closed, sqr, pow_two, wi, wj]
  simp [hk]

/-- Witness for C1 over `ℚ`: `dim = 1`, `k = 0`, sample `(0, 0, 1/2)`. -/
theorem sampleStep_simultaneous_update_witness :
    (0 : Nat) < 1 ∧
    ((sampleStep (fun x : ℚ => 1 + x) 1 (1 / 100) (1 / 10) (1 / 2) ⟨0, 0, 1 / 2⟩
        (initState (fun _ _ => 1) (fun _ _ => 1) (fun _ _ => 0))).U 0 0 = 487 / 500) := by
  refine ⟨by decide, ?_⟩
  have h := (sampleStep_simultaneous_update (fun x : ℚ => 1 + x) 1 (1 / 100) (1 / 10) (1 / 2)
    ⟨0, 0, 1 / 2⟩ (initState (fun _ _ => 1) (fun _ _ => 1) (fun _ _ => 0)) 0 (by decide)).1
  rw [h]
  norm_num [initState, sigmoid, grad_sigmoid, dotProduct, forLoop]

/-- C2: processing a sample `(i, j, r)` sets `eu[i]` to `beta*wi*e + (1 - beta*wi)*eu[i]`
and `es[j]` to `beta*wj*e + (1 - beta*wj)*es[j]`, where `e = |p - r| / r` (raw `r`),
`p = sigmoid (U[i]·S[j])`, and `wi = eu[i]/(eu[i]+es[j])`, `wj = es[j]/(eu[i]+es[j])` are
all read from the state before the sample. -/
theorem sampleStep_confidence_update (exp : α → α) (dim : Nat) (lmda eta beta : α)
    (sp : Sample α) (st : State α) :
    (sampleStep exp dim lmda eta beta sp st).eu sp.i =
        beta * (st.eu sp.i / (st.eu sp.i + st.es sp.j))
            * (|sigmoid exp (dotProduct (st.U sp.i) (st.S sp.j) dim) - sp.r| / sp.r)
          + (1 - beta * (st.eu sp.i / (st.eu sp.i + st.es sp.j))) * st.eu sp.i ∧
    (sampleStep exp dim lmda eta beta sp st).es sp.j =
        beta * (st.es sp.j / (st.eu sp.i + st.es sp.j))
            * (|sigmoid exp (dotProduct (st.U sp.i) (st.S sp.j) dim) - sp.r| / sp.r)
          + (1 - beta * (st.es sp.j / (st.eu sp.i + st.es sp.j))) * st.es sp.j := by
  simp [sampleStep, setEntry, eij, wi, wj]

/-- Confidence vector `eu` after one sample: only entry `i` is rewritten. -/
theorem sampleStep_eu_apply (exp : α → α) (dim : Nat) (lmda eta beta : α)
    (sp : Sample α) (st : State α) (a : Nat) :
    (sampleStep exp dim lmda eta beta sp st).eu a =
      if a = sp.i then
        beta * wi (st.eu sp.i) (st.es sp.j)
            * eij (sigmoid exp (dotProduct (st.U sp.i) (st.S sp.j) dim)) sp.r
          + (1 - beta * wi (st.eu sp.i) (st.es sp.j)) * st.eu sp.i
      else st.eu a := rfl

/-- Confidence vector `es` after one sample: only entry `j` is rewritten. -/
theorem sampleStep_es_apply (exp : α → α) (dim : Nat) (lmda eta beta : α)
    (sp : Sample α) (st : State α) (a : Nat) :
    (sampleStep exp dim lmda eta beta sp st).es a =
      if a = sp.j then
        beta * wj (st.eu sp.i) (st.es sp.j)
            * eij (sigmoid exp (dotProduct (st.U sp.i) (st.S sp.j) dim)) sp.r
          + (1 - beta * wj (st.eu sp.i) (st.es sp.j)) * st.es sp.j
      else st.es a := rfl

/-- A loop that conditionally appends one element per index builds the filtered,
mapped range behind the initial list. -/
theorem forLoop_push_back {β : Type} (c : Nat → Bool) (f : Nat → β) (n : Nat) (init : List β) :
    forLoop n (fun j l => if c j = true then l ++ [f j] else l) init =
      init ++ ((List.range n).filter c).map f := by
  induction n with
  | zero => simp [forLoop]
  | succ n ih =>
    rw [forLoop_succ, ih, List.range_succ, List.filter_append, List.map_append]
    by_cases h : c n = true
    · simp [h]
    · simp [h]

/-- A loop whose body appends a block per index builds the concatenation of the blocks. -/
theorem forLoop_append_blocks {β : Type} (g : Nat → List β) (n : Nat) (init : List β) :
    forLoop n (fun i l => l ++ g i) init = init ++ (List.range n).flatMap g := by
  induction n with
  | zero => simp [forLoop]
  | succ n ih =>
    rw [forLoop_succ, ih, List.range_succ, List.flatMap_append]
    simp

theorem extractSamples_eq_spec (M : Nat → Nat → α) (numUser numService : Nat) :
    extractSamples M numUser numService = samplesSpec M numUser numService := by
  unfold extractSamples samplesSpec
  have inner : ∀ (i : Nat) (l : List (Sample α)),
      forLoop numService (fun j samples =>
        if |M i j| > EPS then samples ++ [(⟨i, j, M i j⟩ : Sample α)] else samples) l =
      l ++ ((List.range numService).filter fun j => decide (|M i j| > EPS)).map
        fun j => ⟨i, j, M i j⟩ := by
    intro i l
    have h := forLoop_push_back (fun j => decide (|M i j| > EPS))
      (fun j => (⟨i, j, M i j⟩ : Sample α)) numService l
    simpa using h
  simp only [inner]
  simpa using forLoop_append_blocks
    (fun i => ((List.range numService).filter fun j => decide (|M i j| > EPS)).map
      fun j => (⟨i, j, M i j⟩ : Sample α)) numUser []

theorem mem_samplesSpec (M : Nat → Nat → α) (numUser numService : Nat) (s : Sample α) :
    s ∈ samplesSpec M numUser numService ↔
      s.i < numUser ∧ s.j < numService ∧ |M s.i s.j| > EPS ∧ s.r = M s.i s.j := by
  unfold samplesSpec
  simp only [List.mem_flatMap, List.mem_map, List.mem_filter, List.mem_range,
    decide_eq_true_eq]
  constructor
  · rintro ⟨i, hi, j, ⟨hj, hobs⟩, rfl⟩
    exact ⟨hi, hj, hobs, rfl⟩
  · rintro ⟨hi, hj, hobs, hr⟩
    refine ⟨s.i, hi, s.j, ⟨hj, hobs⟩, ?_⟩
    cases s
    simp_all

theorem samplesSpec_pairwise (M : Nat → Nat → α) (numUser numService : Nat) :
    (samplesSpec M numUser numService).Pairwise
      (fun s t => s.i < t.i ∨ (s.i = t.i ∧ s.j < t.j)) := by
  unfold samplesSpec
  rw [List.pairwise_flatMap]
  constructor
  · intro i _
    rw [List.pairwise_map]
    refine List.Pairwise.imp ?_ ((List.pairwise_lt_range numService).filter _)
    intro a b hab
    exact Or.inr ⟨rfl, hab⟩
  · refine List.Pairwise.imp ?_ (List.pairwise_lt_range numUser)
    intro a b hab x hx y hy
    simp only [List.mem_map, List.mem_filter] at hx hy
    obtain ⟨_, _, rfl⟩ := hx
    obtain ⟨_, _, rfl⟩ := hy
    exact Or.inl hab

/-- C3: the sample list built by `AMF` before the first shuffle is the row-major list of
the triples `(i, j, M[i][j])` of the cells with `|M[i][j]| > 1e-10`: it equals the
specification list, it is strictly increasing in `(i, j)` (so no cell appears twice), and
its members are exactly the in-range observed cells with their values. It is a function of
the observation matrix and its two dimensions only. -/
theorem extractSamples_row_major (M : Nat → Nat → α) (numUser numService : Nat) :
    extractSamples M numUser numService = samplesSpec M numUser numService ∧
    (extractSamples M numUser numService).Pairwise
      (fun s t => s.i < t.i ∨ (s.i = t.i ∧ s.j < t.j)) ∧
    ∀ s : Sample α, s ∈ extractSamples M numUser numService ↔
      s.i < numUser ∧ s.j < numService ∧ |M s.i s.j| > (1 / 10 ^ 10 : α) ∧ s.r = M s.i s.j := by
  rw [extractSamples_eq_spec]
  exact ⟨rfl, samplesSpec_pairwise M numUser numService,
    fun s => mem_samplesSpec M numUser numService s⟩

/-- The inner loop of `getPredMatrix` on row `i`, after `n` columns. -/
theorem getPredMatrix_row (exp : α → α) (flag : Bool) (M U S : Nat → Nat → α) (dim i : Nat)
    (n : Nat) (P : Nat → Nat → α) (a b : Nat) :
    forLoop n (fun j pm =>
      if flag = true ∨ |M i j| > EPS then
        setCell pm i j (sigmoid exp (dotProduct (U i) (S j) dim))
      else pm) P a b =
    if a = i ∧ b < n ∧ (flag = true ∨ |M a b| > EPS) then
      sigmoid exp (dotProduct (U a) (S b) dim)
    else P a b := by
  induction n with
  | zero => simp [forLoop]
  | succ n ih =>
    rw [forLoop_succ]
    by_cases hc : flag = true ∨ |M i n| > EPS
    · rw [if_pos hc]
      simp only [setCell]
      by_cases hab : a = i ∧ b = n
      · obtain ⟨rfl, rfl⟩ := hab
        simp [hc]
      · rw [if_neg hab, ih]
        by_cases ha : a = i
        · have hb : b ≠ n := fun h => hab ⟨ha, h⟩
          have hlt : b < n + 1 ↔ b < n := by omega
          simp [ha, hlt]
        · simp [ha]
    · rw [if_neg hc, ih]
      by_cases ha : a = i
      · by_cases hb : b = n
        · subst ha; subst hb
          simp [hc]
        · have hlt : b < n + 1 ↔ b < n := by omega
          simp [ha, hlt]
      · simp [ha]

/-- Closed form of `getPredMatrix`: a cell is rewritten exactly when it lies inside the
`numUser × numService` range and the mode flag or the observation test selects it. -/
theorem getPredMatrix_apply (exp : α → α) (flag : Bool) (M U S : Nat → Nat → α)
    (numUser numService dim : Nat) (P : Nat → Nat → α) (a b : Nat) :
    getPredMatrix exp flag M U S numUser numService dim P a b =
    if a < numUser ∧ b < numService ∧ (flag = true ∨ |M a b| > EPS) then
      sigmoid exp (dotProduct (U a) (S b) dim)
    else P a b := by
  unfold getPredMatrix
  induction numUser with
  | zero => simp [forLoop]
  | succ n ih =>
    rw [forLoop_succ, getPredMatrix_row, ih]
    by_cases ha : a = n
    · subst ha
      simp
    · by_cases hlt : a < n
      · have h1 : a < n + 1 := by omega
        simp [ha, hlt, h1]
      · have h1 : ¬ a < n + 1 := by omega
        simp [ha, hlt, h1]

/-- C6: for every cell `(i, j)` of the `numUser × numService` range, `getPredMatrix` in
full mode (`flag = true`) writes `sigmoid (U[i]·S[j])`, and in observed-only mode
(`flag = false`) writes `sigmoid (U[i]·S[j])` if `|removedMatrix[i][j]| > 1e-10` and keeps
the previous value otherwise. (`U`, `S` and `removedMatrix` are read only: the function
returns the prediction buffer alone.) -/
theorem getPredMatrix_cell (exp : α → α) (M U S : Nat → Nat → α)
    (numUser numService dim : Nat) (P : Nat → Nat → α) (i j : Nat)
    (hi : i < numUser) (hj : j < numService) :
    getPredMatrix exp true M U S numUser numService dim P i j =
      sigmoid exp (dotProduct (U i) (S j) dim) ∧
    getPredMatrix exp false M U S numUser numService dim P i j =
      if |M i j| > (1 / 10 ^ 10 : α) then sigmoid exp (dotProduct (U i) (S j) dim)
      else P i j := by
  constructor
  · rw [getPredMatrix_apply]
    simp [hi, hj]
  · rw [getPredMatrix_apply]
    simp [hi, hj, EPS]

/-- Witness for C6 over `ℚ`: a `1 × 1` matrix, cell `(0, 0)`. -/
theorem getPredMatrix_cell_witness :
    (0 : Nat) < 1 ∧ (0 : Nat) < 1 ∧
    getPredMatrix (fun x : ℚ => 1 + x) true (fun _ _ => 0) (fun _ _ => 1) (fun _ _ => 1)
      1 1 1 (fun _ _ => 7) 0 0 = 1 ∧
    getPredMatrix (fun x : ℚ => 1 + x) false (fun _ _ => 0) (fun _ _ => 1) (fun _ _ => 1)
      1 1 1 (fun _ _ => 7) 0 0 = 7 := by
  have h := getPredMatrix_cell (fun x : ℚ => 1 + x) (fun _ _ => 0) (fun _ _ => 1)
    (fun _ _ => 1) 1 1 1 (fun _ _ => 7) 0 0 (by decide) (by decide)
  refine ⟨by decide, by decide, ?_, ?_⟩
  · rw [h.1]
    norm_num [sigmoid, dotProduct, forLoop]
  · rw [h.2]
    norm_num

theorem sampleStep_trainingPart (exp : α → α) (dim : Nat) (lmda eta beta : α)
    (sp : Sample α) (st : State α) :
    trainingPart (sampleStep exp dim lmda eta beta sp st) =
      sampleStep exp dim lmda eta beta sp (trainingPart st) := rfl

theorem debugStep_trainingPart (exp : α → α) (M : Nat → Nat → α) (numUser numService dim : Nat)
    (lmda : α) (debugMode : Bool) (iter size s : Nat) (st : State α) :
    trainingPart (debugStep exp M numUser numService dim lmda debugMode iter size s st) =
      trainingPart st := by
  unfold debugStep
  split_ifs <;> rfl

theorem debugStep_false (exp : α → α) (M : Nat → Nat → α) (numUser numService dim : Nat)
    (lmda : α) (iter size s : Nat) (st : State α) :
    debugStep exp M numUser numService dim lmda false iter size s st = st := by
  simp [debugStep]

/-- The training part of the state after an epoch is the one computed by the epoch without
progress records, started from the training part. -/
theorem epochLoop_trainingPart (exp : α → α) (M : Nat → Nat → α) (numUser numService dim : Nat)
    (lmda eta beta : α) (debugMode : Bool) (iter size : Nat) (l : List (Sample α)) :
    ∀ (s : Nat) (st : State α),
      trainingPart (epochLoop exp M numUser numService dim lmda eta beta debugMode iter size
        s l st) =
      epochLoop exp M numUser numService dim lmda eta beta false iter size s l
        (trainingPart st) := by
  induction l with
  | nil => intro s st; rfl
  | cons sp rest ih =>
    intro s st
    simp only [epochLoop]
    rw [ih, debugStep_trainingPart, debugStep_false, sampleStep_trainingPart]

/-- The sample vector and the training part of the state after the training loop do not
depend on the diagnostic flag nor on the prediction buffer. -/
theorem trainLoop_trainingPart (exp : α → α) (shuffle : Nat → List (Sample α) → List (Sample α))
    (M : Nat → Nat → α) (numUser numService dim : Nat) (lmda eta beta : α) (debugMode : Bool)
    (maxIter : Nat) (l : List (Sample α)) (st : State α) :
    (trainLoop exp shuffle M numUser numService dim lmda eta beta debugMode maxIter (l, st)).1 =
      (trainLoop exp shuffle M numUser numService dim lmda eta beta false maxIter
        (l, trainingPart st)).1 ∧
    trainingPart
      (trainLoop exp shuffle M numUser numService dim lmda eta beta debugMode maxIter (l, st)).2 =
      (trainLoop exp shuffle M numUser numService dim lmda eta beta false maxIter
        (l, trainingPart st)).2 := by
  unfold trainLoop
  induction maxIter with
  | zero => exact ⟨rfl, rfl⟩
  | succ n ih =>
    rw [forLoop_succ, forLoop_succ]
    obtain ⟨h1, h2⟩ := ih
    refine ⟨?_, ?_⟩
    · simp only [h1]
    · simp only [epochLoop_trainingPart, h1, h2]

theorem debugStep_pred_outside (exp : α → α) (M : Nat → Nat → α) (numUser numService dim : Nat)
    (lmda : α) (debugMode : Bool) (iter size s : Nat) (st : State α) (a b : Nat)
    (h : ¬ (a < numUser ∧ b < numService)) :
    (debugStep exp M numUser numService dim lmda debugMode iter size s st).predMatrix a b =
      st.predMatrix a b := by
  unfold debugStep
  split_ifs
  · simp only [getPredMatrix_apply]
    rw [if_neg]
    intro hc
    exact h ⟨hc.1, hc.2.1⟩
  · rfl
  · rfl

theorem epochLoop_pred_outside (exp : α → α) (M : Nat → Nat → α) (numUser numService dim : Nat)
    (lmda eta beta : α) (debugMode : Bool) (iter size : Nat) (l : List (Sample α))
    (a b : Nat) (h : ¬ (a < numUser ∧ b < numService)) :
    ∀ (s : Nat) (st : State α),
      (epochLoop exp M numUser numService dim lmda eta beta debugMode iter size
        s l st).predMatrix a b = st.predMatrix a b := by
  induction l with
  | nil => intro s st; rfl
  | cons sp rest ih =>
    intro s st
    simp only [epochLoop]
    rw [ih, debugStep_pred_outside _ _ _ _ _ _ _ _ _ _ _ _ _ h]
    rfl

theorem trainLoop_pred_outside (exp : α → α) (shuffle : Nat → List (Sample α) → List (Sample α))
    (M : Nat → Nat → α) (numUser numService dim : Nat) (lmda eta beta : α) (debugMode : Bool)
    (maxIter : Nat) (l : List (Sample α)) (st : State α)
    (a b : Nat) (h : ¬ (a < numUser ∧ b < numService)) :
    (trainLoop exp shuffle M numUser numService dim lmda eta beta debugMode maxIter
      (l, st)).2.predMatrix a b = st.predMatrix a b := by
  unfold trainLoop
  induction maxIter with
  | zero => rfl
  | succ n ih =>
    rw [forLoop_succ]
    simp only
    rw [epochLoop_pred_outside _ _ _ _ _ _ _ _ _ _ _ _ _ _ h, ih]

/-- The `U` output of `AMF` is the `U` of the training part after the training loop run
without progress records on a blank prediction buffer; likewise `S`, `eu`, `es`. -/
theorem AMF_trainingPart (exp : α → α) (shuffle : Nat → List (Sample α) → List (Sample α))
    (M : Nat → Nat → α) (numUser numService dim : Nat) (lmda : α) (maxIter : Nat)
    (eta beta : α) (debugMode : Bool) (U S P : Nat → Nat → α) :
    trainingPart (AMF exp shuffle M numUser numService dim lmda maxIter eta beta debugMode U S P) =
      (trainLoop exp shuffle M numUser numService dim lmda eta beta false maxIter
        (extractSamples M numUser numService, trainingPart (initState U S P))).2 := by
  rw [← (trainLoop_trainingPart exp shuffle M numUser numService dim lmda eta beta debugMode
    maxIter (extractSamples M numUser numService) (initState U S P)).2]
  rfl

/-- Closed form of the prediction buffer returned by `AMF`. -/
theorem AMF_predMatrix_apply (exp : α → α) (shuffle : Nat → List (Sample α) → List (Sample α))
    (M : Nat → Nat → α) (numUser numService dim : Nat) (lmda : α) (maxIter : Nat)
    (eta beta : α) (debugMode : Bool) (U S P : Nat → Nat → α) (a b : Nat) :
    (AMF exp shuffle M numUser numService dim lmda maxIter eta beta debugMode U S P).predMatrix
        a b =
      if a < numUser ∧ b < numService then
        sigmoid exp (dotProduct
          ((AMF exp shuffle M numUser numService dim lmda maxIter eta beta debugMode U S P).U a)
          ((AMF exp shuffle M numUser numService dim lmda maxIter eta beta debugMode U S P).S b)
          dim)
      else P a b := by
  simp only [AMF, getPredMatrix_apply]
  by_cases h : a < numUser ∧ b < numService
  · simp [h]
  · rw [if_neg h, if_neg (fun hc => h ⟨hc.1, hc.2.1⟩), trainLoop_pred_outside _ _ _ _ _ _ _ _ _ _ _
      _ _ _ _ h]
    rfl

/-- C4: for every input, epoch count, shuffle order and value of `debugMode`, every cell
`(i, j)` of the prediction matrix returned by `AMF` equals `sigmoid (U_out[i]·S_out[j])`
for the returned `U_out`, `S_out`; and a run started on another prediction buffer `Q`
returns the same `U`, `S` and the same cell. -/
theorem AMF_pred_is_sigmoid (exp : α → α) (shuffle : Nat → List (Sample α) → List (Sample α))
    (M : Nat → Nat → α) (numUser numService dim : Nat) (lmda : α) (maxIter : Nat)
    (eta beta : α) (debugMode : Bool) (U S P Q : Nat → Nat → α) (i j : Nat)
    (hi : i < numUser) (hj : j < numService) :
    (AMF exp shuffle M numUser numService dim lmda maxIter eta beta debugMode U S P).predMatrix
        i j =
      sigmoid exp (dotProduct
        ((AMF exp shuffle M numUser numService dim lmda maxIter eta beta debugMode U S P).U i)
        ((AMF exp shuffle M numUser numService dim lmda maxIter eta beta debugMode U S P).S j)
        dim) ∧
    (AMF exp shuffle M numUser numService dim lmda maxIter eta beta debugMode U S Q).U =
      (AMF exp shuffle M numUser numService dim lmda maxIter eta beta debugMode U S P).U ∧
    (AMF exp shuffle M numUser numService dim lmda maxIter eta beta debugMode U S Q).S =
      (AMF exp shuffle M numUser numService dim lmda maxIter eta beta debugMode U S P).S ∧
    (AMF exp shuffle M numUser numService dim lmda maxIter eta beta debugMode U S Q).predMatrix
        i j =
      (AMF exp shuffle M numUser numService dim lmda maxIter eta beta debugMode U S P).predMatrix
        i j := by
  have hP := AMF_trainingPart exp shuffle M numUser numService dim lmda maxIter eta beta
    debugMode U S P
  have hQ := AMF_trainingPart exp shuffle M numUser numService dim lmda maxIter eta beta
    debugMode U S Q
  have hPQ : trainingPart
      (AMF exp shuffle M numUser numService dim lmda maxIter eta beta debugMode U S Q) =
      trainingPart
        (AMF exp shuffle M numUser numService dim lmda maxIter eta beta debugMode U S P) := by
    rw [hP, hQ]
    rfl
  have hU := congrArg State.U hPQ
  have hS := congrArg State.S hPQ
  simp only [trainingPart] at hU hS
  refine ⟨?_, hU, hS, ?_⟩
  · rw [AMF_predMatrix_apply, if_pos ⟨hi, hj⟩]
  · rw [AMF_predMatrix_apply, AMF_predMatrix_apply, if_pos ⟨hi, hj⟩, if_pos ⟨hi, hj⟩, hU, hS]

/-- Witness for C4 over `ℚ`: one user, one service, `dim = 1`, one epoch, cell `(0, 0)`,
prediction buffers `0` and `7`. -/
theorem AMF_pred_is_sigmoid_witness :
    (0 : Nat) < 1 ∧ (0 : Nat) < 1 ∧
    (AMF (fun x : ℚ => 1 + x) (fun _ l => l) (fun _ _ => 1 / 2) 1 1 1 (1 / 100) 1 (1 / 10)
        (1 / 2) true (fun _ _ => 1) (fun _ _ => 1) (fun _ _ => 7)).predMatrix 0 0 =
      (AMF (fun x : ℚ => 1 + x) (fun _ l => l) (fun _ _ => 1 / 2) 1 1 1 (1 / 100) 1 (1 / 10)
        (1 / 2) true (fun _ _ => 1) (fun _ _ => 1) (fun _ _ => 0)).predMatrix 0 0 :=
  ⟨by decide, by decide,
   (AMF_pred_is_sigmoid (fun x : ℚ => 1 + x) (fun _ l => l) (fun _ _ => 1 / 2) 1 1 1 (1 / 100) 1
     (1 / 10) (1 / 2) true (fun _ _ => 1) (fun _ _ => 1) (fun _ _ => 0) (fun _ _ => 7) 0 0
     (by decide) (by decide)).2.2.2⟩

/-- C5: with `maxIter = 0`, `AMF` returns the caller's `U` and `S` unchanged, and every
cell `(i, j)` of the returned prediction matrix is `sigmoid (U[i]·S[j])` of these initial
matrices, whatever the observation matrix and the other parameters. -/
theorem AMF_zero_iterations (exp : α → α) (shuffle : Nat → List (Sample α) → List (Sample α))
    (M : Nat → Nat → α) (numUser numService dim : Nat) (lmda eta beta : α) (debugMode : Bool)
    (U S P : Nat → Nat → α) (i j : Nat) (hi : i < numUser) (hj : j < numService) :
    (AMF exp shuffle M numUser numService dim lmda 0 eta beta debugMode U S P).U = U ∧
    (AMF exp shuffle M numUser numService dim lmda 0 eta beta debugMode U S P).S = S ∧
    (AMF exp shuffle M numUser numService dim lmda 0 eta beta debugMode U S P).predMatrix i j =
      sigmoid exp (dotProduct (U i) (S j) dim) := by
  refine ⟨rfl, rfl, ?_⟩
  rw [AMF_predMatrix_apply, if_pos ⟨hi, hj⟩]
  rfl

/-- Witness for C5 over `ℚ`: a `1 × 1` problem, cell `(0, 0)`. -/
theorem AMF_zero_iterations_witness :
    (0 : Nat) < 1 ∧ (0 : Nat) < 1 ∧
    (AMF (fun x : ℚ => 1 + x) (fun _ l => l) (fun _ _ => 1 / 2) 1 1 1 (1 / 100) 0 (1 / 10)
        (1 / 2) false (fun _ _ => 1) (fun _ _ => 1) (fun _ _ => 7)).predMatrix 0 0 = 1 := by
  refine ⟨by decide, by decide, ?_⟩
  rw [(AMF_zero_iterations (fun x : ℚ => 1 + x) (fun _ l => l) (fun _ _ => 1 / 2) 1 1 1 (1 / 100)
    (1 / 10) (1 / 2) false (fun _ _ => 1) (fun _ _ => 1) (fun _ _ => 7) 0 0
    (by decide) (by decide)).2.2]
  norm_num [sigmoid, dotProduct, forLoop]

/-- C9: on the same input and shuffle order, `AMF` with `debugMode = true` returns the
same `U`, `S` and prediction matrix as `AMF` with `debugMode = false`. -/
theorem AMF_debugMode_irrelevant (exp : α → α)
    (shuffle : Nat → List (Sample α) → List (Sample α))
    (M : Nat → Nat → α) (numUser numService dim : Nat) (lmda : α) (maxIter : Nat)
    (eta beta : α) (U S P : Nat → Nat → α) :
    (AMF exp shuffle M numUser numService dim lmda maxIter eta beta true U S P).U =
      (AMF exp shuffle M numUser numService dim lmda maxIter eta beta false U S P).U ∧
    (AMF exp shuffle M numUser numService dim lmda maxIter eta beta true U S P).S =
      (AMF exp shuffle M numUser numService dim lmda maxIter eta beta false U S P).S ∧
    (AMF exp shuffle M numUser numService dim lmda maxIter eta beta true U S P).predMatrix =
      (AMF exp shuffle M numUser numService dim lmda maxIter eta beta false U S P).predMatrix := by
  have hT := AMF_trainingPart exp shuffle M numUser numService dim lmda maxIter eta beta
    true U S P
  have hF := AMF_trainingPart exp shuffle M numUser numService dim lmda maxIter eta beta
    false U S P
  have hTF := hT.trans hF.symm
  have hU := congrArg State.U hTF
  have hS := congrArg State.S hTF
  simp only [trainingPart] at hU hS
  refine ⟨hU, hS, ?_⟩
  funext a b
  rw [AMF_predMatrix_apply, AMF_predMatrix_apply, hU, hS]

/-- An accumulation loop `acc += f i` adds the sum of the terms to the initial value. -/
theorem forLoop_accumulate (f : Nat → α) (n : Nat) (init : α) :
    forLoop n (fun i acc => acc + f i) init = init + ∑ i in Finset.range n, f i := by
  induction n with
  | zero => simp [forLoop]
  | succ n ih => rw [forLoop_succ, ih, Finset.sum_range_succ, add_assoc]

/-- A guarded accumulation loop adds the sum of the selected terms. -/
theorem forLoop_accumulate_if (c : Nat → Prop) [DecidablePred c] (f : Nat → α) (n : Nat)
    (init : α) :
    forLoop n (fun i acc => if c i then acc + f i else acc) init =
      init + ∑ i in Finset.range n, (if c i then f i else 0) := by
  have h : (fun (i : Nat) (acc : α) => if c i then acc + f i else acc) =
      fun i acc => acc + (if c i then f i else 0) := by
    funext i acc
    split_ifs <;> simp
  rw [h, forLoop_accumulate]

/-- C7: `loss` equals half the sum, over the cells with `|M[i][j]| > 1e-10`, of the squared
relative error `((M[i][j] - P[i][j]) / M[i][j])^2`, plus `0.5 * lmda` times the sum of the
squares of all entries of `U` and of all entries of `S`. -/
theorem loss_formula (U S M P : Nat → Nat → α) (lmda : α) (numUser numService dim : Nat) :
    loss U S M P lmda numUser numService dim =
      1 / 2 * (∑ i in Finset.range numUser, ∑ j in Finset.range numService,
          (if |M i j| > (1 / 10 ^ 10 : α) then ((M i j - P i j) / M i j) ^ 2 else 0))
      + 1 / 2 * lmda *
          ((∑ i in Finset.range numUser, ∑ k in Finset.range dim, U i k ^ 2)
            + (∑ j in Finset.range numService, ∑ k in Finset.range dim, S j k ^ 2)) := by
  unfold loss
  have hreg : (fun (k : Nat) (acc : α) =>
      forLoop numService (fun j acc => acc + 1 / 2 * lmda * sqr (S j k))
        (forLoop numUser (fun i acc => acc + 1 / 2 * lmda * sqr (U i k)) acc)) =
      fun k acc => acc + (∑ i in Finset.range numUser, 1 / 2 * lmda * sqr (U i k)
        + ∑ j in Finset.range numService, 1 / 2 * lmda * sqr (S j k)) := by
    funext k acc
    rw [forLoop_accumulate, forLoop_accumulate, add_assoc]
  have hcost : (fun (i : Nat) (acc : α) =>
      forLoop numService (fun j acc =>
        if |M i j| > EPS then acc + 1 / 2 * sqr ((M i j - P i j) / M i j) else acc) acc) =
      fun i acc => acc + ∑ j in Finset.range numService,
        (if |M i j| > EPS then 1 / 2 * sqr ((M i j - P i j) / M i j) else 0) := by
    funext i acc
    rw [forLoop_accumulate_if]
  simp only []
  rw [hreg, hcost, forLoop_accumulate, forLoop_accumulate, zero_add]
  have hU : ∑ i in Finset.range numUser, ∑ k in Finset.range dim, U i k ^ 2 =
      ∑ k in Finset.range dim, ∑ i in Finset.range numUser, U i k ^ 2 := Finset.sum_comm
  have hS : ∑ j in Finset.range numService, ∑ k in Finset.range dim, S j k ^ 2 =
      ∑ k in Finset.range dim, ∑ j in Finset.range numService, S j k ^ 2 := Finset.sum_comm
  rw [hU, hS]
  simp only [Finset.mul_sum, Finset.sum_add_distrib, sqr, pow_two, EPS, mul_add]
  congr 1
  refine Finset.sum_congr rfl (fun i _ => Finset.sum_congr rfl (fun j _ => ?_))
  split_ifs <;> simp

/-- Rows of `U` other than row `i` are not written by a sample `(i, j, r)`. -/
theorem sampleStep_U_other (exp : α → α) (dim : Nat) (lmda eta beta : α)
    (sp : Sample α) (st : State α) (a : Nat) (h : a ≠ sp.i) :
    (sampleStep exp dim lmda eta beta sp st).U a = st.U a := by
  funext b
  simp [sampleStep, gradLoop_closed, h]

/-- Rows of `S` other than row `j` are not written by a sample `(i, j, r)`. -/
theorem sampleStep_S_other (exp : α → α) (dim : Nat) (lmda eta beta : α)
    (sp : Sample α) (st : State α) (a : Nat) (h : a ≠ sp.j) :
    (sampleStep exp dim lmda eta beta sp st).S a = st.S a := by
  funext b
  simp [sampleStep, gradLoop_closed, h]

/-- Over the reals the squashing function takes its values strictly between 0 and 1. -/
theorem sigmoid_real_bounds (x : ℝ) : 0 < sigmoid Real.exp x ∧ sigmoid Real.exp x < 1 := by
  have h := Real.exp_pos (-x)
  unfold sigmoid
  constructor
  · positivity
  · rw [div_lt_one (by positivity)]
    linarith

/-- A list that is a permutation of a two-element list is one of its two orders. -/
theorem perm_pair_cases {β : Type} {a b : β} {l : List β} (h : l.Perm [a, b]) :
    l = [a, b] ∨ l = [b, a] := by
  have hlen := h.length_eq
  match l, hlen with
  | [x, y], _ =>
    have hx : x ∈ [a, b] := h.subset (List.mem_cons_self x [y])
    simp only [List.mem_cons, List.mem_singleton, List.not_mem_nil, or_false] at hx
    rcases hx with rfl | rfl
    · have h2 := List.Perm.cons_inv h
      rw [List.perm_singleton] at h2
      left; rw [h2]
    · have h2 : [x, y].Perm [x, a] := h.trans (List.Perm.swap x a [])
      have h3 := List.Perm.cons_inv h2
      rw [List.perm_singleton] at h3
      right; rw [h3]

/-- The sample vector of the scenario: the two observed cells, in row-major order. -/
theorem scenario_samples :
    extractSamples (scenarioMatrix : Nat → Nat → α) 2 2 = [⟨0, 0, 1 / 2⟩, ⟨1, 1, 4 / 5⟩] := by
  have h1 : |(1 / 2 : α)| > 1 / 10 ^ 10 := by
    rw [abs_of_pos (by norm_num)]; norm_num
  have h2 : |(4 / 5 : α)| > 1 / 10 ^ 10 := by
    rw [abs_of_pos (by norm_num)]; norm_num
  have h3 : ¬ |(0 : α)| > 1 / 10 ^ 10 := by
    rw [abs_zero]; norm_num
  have m00 : (scenarioMatrix : Nat → Nat → α) 0 0 = 1 / 2 := by simp [scenarioMatrix]
  have m01 : (scenarioMatrix : Nat → Nat → α) 0 1 = 0 := by simp [scenarioMatrix]
  have m10 : (scenarioMatrix : Nat → Nat → α) 1 0 = 0 := by simp [scenarioMatrix]
  have m11 : (scenarioMatrix : Nat → Nat → α) 1 1 = 4 / 5 := by simp [scenarioMatrix]
  simp only [extractSamples, forLoop, m00, m01, m10, m11, EPS, h1, h2, h3, if_true, if_false,
    List.nil_append, List.singleton_append]

/-- One sample processed with `beta = 1/2`, `dim = 1`, on rows equal to `[1.0]` and
confidence values `1`, with an observed value `r ≥ 1/2`: both rewritten confidence values
are below `1`. -/
theorem scenario_step_lt (lmda eta : ℝ) (sp : Sample ℝ) (st : State ℝ) (hr : 1 / 2 ≤ sp.r)
    (heu : st.eu sp.i = 1) (hes : st.es sp.j = 1)
    (hU : st.U sp.i = fun _ => 1) (hS : st.S sp.j = fun _ => 1) :
    (sampleStep Real.exp 1 lmda eta (1 / 2) sp st).eu sp.i < 1 ∧
    (sampleStep Real.exp 1 lmda eta (1 / 2) sp st).es sp.j < 1 := by
  rw [sampleStep_eu_apply, sampleStep_es_apply, if_pos rfl, if_pos rfl, heu, hes, hU, hS]
  obtain ⟨hp0, hp1⟩ := sigmoid_real_bounds (dotProduct (fun _ => (1 : ℝ)) (fun _ => 1) 1)
  have he : eij (sigmoid Real.exp (dotProduct (fun _ => (1 : ℝ)) (fun _ => 1) 1)) sp.r < 1 := by
    unfold eij
    rw [div_lt_one (by linarith), abs_lt]
    constructor <;> linarith
  have hw1 : wi (1 : ℝ) 1 = 1 / 2 := by norm_num [wi]
  have hw2 : wj (1 : ℝ) 1 = 1 / 2 := by norm_num [wj]
  rw [hw1, hw2]
  constructor <;> linarith

/-- Two samples on distinct users and distinct services, processed one after the other
under the assumptions of `scenario_step_lt`: all four rewritten confidence values are
below `1`. -/
theorem scenario_two_steps_lt (lmda eta : ℝ) (sA sB : Sample ℝ) (st : State ℝ)
    (hi : sA.i ≠ sB.i) (hj : sA.j ≠ sB.j) (hrA : 1 / 2 ≤ sA.r) (hrB : 1 / 2 ≤ sB.r)
    (heu : ∀ a, st.eu a = 1) (hes : ∀ a, st.es a = 1)
    (hU : ∀ a, st.U a = fun _ => 1) (hS : ∀ a, st.S a = fun _ => 1) :
    (sampleStep Real.exp 1 lmda eta (1 / 2) sB
      (sampleStep Real.exp 1 lmda eta (1 / 2) sA st)).eu sA.i < 1 ∧
    (sampleStep Real.exp 1 lmda eta (1 / 2) sB
      (sampleStep Real.exp 1 lmda eta (1 / 2) sA st)).eu sB.i < 1 ∧
    (sampleStep Real.exp 1 lmda eta (1 / 2) sB
      (sampleStep Real.exp 1 lmda eta (1 / 2) sA st)).es sA.j < 1 ∧
    (sampleStep Real.exp 1 lmda eta (1 / 2) sB
      (sampleStep Real.exp 1 lmda eta (1 / 2) sA st)).es sB.j < 1 := by
  have hA := scenario_step_lt lmda eta sA st hrA (heu _) (hes _) (hU _) (hS _)
  have hB := scenario_step_lt lmda eta sB (sampleStep Real.exp 1 lmda eta (1 / 2) sA st) hrB
    (by rw [sampleStep_eu_apply, if_neg (Ne.symm hi), heu])
    (by rw [sampleStep_es_apply, if_neg (Ne.symm hj), hes])
    (by rw [sampleStep_U_other _ _ _ _ _ _ _ _ (Ne.symm hi), hU])
    (by rw [sampleStep_S_other _ _ _ _ _ _ _ _ (Ne.symm hj), hS])
  refine ⟨?_, hB.1, ?_, hB.2⟩
  · rw [sampleStep_eu_apply, if_neg hi]
    exact hA.1
  · rw [sampleStep_es_apply, if_neg hj]
    exact hA.2

/-- C10: in the scenario (`2 × 2` matrix `[[0.5, 0], [0, 0.8]]`, `dim = 1`,
`U = S = [[1], [1]]`, `lmda = 0.01`, `eta = 0.1`, `beta = 0.5`, `maxIter = 1`) over the reals,
for every shuffle that permutes the sample vector and either value of `debugMode`: the
extracted samples are `(0,0,0.5)` and `(1,1,0.8)`, the single epoch runs over a permutation
of these two samples, and after the run `eu[0]`, `eu[1]`, `es[0]`, `es[1]` are all
strictly below `1`. -/
theorem scenario_confidence_below_one (shuffle : Nat → List (Sample ℝ) → List (Sample ℝ))
    (hshuffle : ∀ l, (shuffle 0 l).Perm l) (debugMode : Bool) (P : Nat → Nat → ℝ) :
    extractSamples (scenarioMatrix : Nat → Nat → ℝ) 2 2 = [⟨0, 0, 1 / 2⟩, ⟨1, 1, 4 / 5⟩] ∧
    (trainLoop Real.exp shuffle scenarioMatrix 2 2 1 (1 / 100) (1 / 10) (1 / 2) debugMode 1
      (extractSamples scenarioMatrix 2 2, initState scenarioLatent scenarioLatent P)).1.Perm
        [⟨0, 0, 1 / 2⟩, ⟨1, 1, 4 / 5⟩] ∧
    (AMF Real.exp shuffle scenarioMatrix 2 2 1 (1 / 100) 1 (1 / 10) (1 / 2) debugMode
      scenarioLatent scenarioLatent P).eu 0 < 1 ∧
    (AMF Real.exp shuffle scenarioMatrix 2 2 1 (1 / 100) 1 (1 / 10) (1 / 2) debugMode
      scenarioLatent scenarioLatent P).eu 1 < 1 ∧
    (AMF Real.exp shuffle scenarioMatrix 2 2 1 (1 / 100) 1 (1 / 10) (1 / 2) debugMode
      scenarioLatent scenarioLatent P).es 0 < 1 ∧
    (AMF Real.exp shuffle scenarioMatrix 2 2 1 (1 / 100) 1 (1 / 10) (1 / 2) debugMode
      scenarioLatent scenarioLatent P).es 1 < 1 := by
  have hT := AMF_trainingPart Real.exp shuffle scenarioMatrix 2 2 1 (1 / 100) 1 (1 / 10) (1 / 2)
    debugMode scenarioLatent scenarioLatent P
  have heu := congrArg State.eu hT
  have hes := congrArg State.es hT
  simp only [trainingPart] at heu hes
  rw [heu, hes]
  have hperm := hshuffle [(⟨0, 0, 1 / 2⟩ : Sample ℝ), ⟨1, 1, 4 / 5⟩]
  refine ⟨scenario_samples, ?_, ?_⟩
  · rw [scenario_samples]
    exact hperm
  · rw [scenario_samples]
    simp only [trainLoop, forLoop]
    rcases perm_pair_cases hperm with h | h
    · rw [h]
      simp only [epochLoop, debugStep_false]
      have := scenario_two_steps_lt (1 / 100) (1 / 10) ⟨0, 0, 1 / 2⟩ ⟨1, 1, 4 / 5⟩
        (trainingPart (initState scenarioLatent scenarioLatent P))
        (by decide) (by decide) (by norm_num) (by norm_num)
        (fun _ => rfl) (fun _ => rfl) (fun _ => rfl) (fun _ => rfl)
      exact ⟨this.1, this.2.1, this.2.2.1, this.2.2.2⟩
    · rw [h]
      simp only [epochLoop, debugStep_false]
      have := scenario_two_steps_lt (1 / 100) (1 / 10) ⟨1, 1, 4 / 5⟩ ⟨0, 0, 1 / 2⟩
        (trainingPart (initState scenarioLatent scenarioLatent P))
        (by decide) (by decide) (by norm_num) (by norm_num)
        (fun _ => rfl) (fun _ => rfl) (fun _ => rfl) (fun _ => rfl)
      exact ⟨this.2.1, this.1, this.2.2.2, this.2.2.1⟩

/-- Witness for C10: the shuffle that reverses the sample vector, with progress records on. -/
theorem scenario_confidence_below_one_witness :
    (∀ l : List (Sample ℝ), ((fun (_ : Nat) (l : List (Sample ℝ)) => l.reverse) 0 l).Perm l) ∧
    (AMF Real.exp (fun _ l => l.reverse) scenarioMatrix 2 2 1 (1 / 100) 1 (1 / 10) (1 / 2) true
      scenarioLatent scenarioLatent (fun _ _ => 0)).eu 0 < 1 :=
  ⟨fun l => List.reverse_perm l,
   (scenario_confidence_below_one (fun _ l => l.reverse) (fun l => List.reverse_perm l) true
     (fun _ _ => 0)).2.2.1⟩

/-- C12: the predictor is idempotent: with unchanged `U`, `S`, observation matrix and mode
flag, a second call of `getPredMatrix` on the buffer produced by a first call leaves that
buffer as it is, whatever the starting buffer. -/
theorem getPredMatrix_idempotent (exp : α → α) (flag : Bool) (M U S : Nat → Nat → α)
    (numUser numService dim : Nat) (P : Nat → Nat → α) :
    getPredMatrix exp flag M U S numUser numService dim
        (getPredMatrix exp flag M U S numUser numService dim P) =
      getPredMatrix exp flag M U S numUser numService dim P := by
  funext a b
  simp only [getPredMatrix_apply]
  split_ifs <;> rfl

/-- C16: processing one sample `(i, j, r)` leaves every row `a ≠ i` of `U`, every row
`b ≠ j` of `S`, every entry `eu[a]` with `a ≠ i` and every entry `es[b]` with `b ≠ j` as
they were; it writes neither the prediction buffer nor the output stream. (The sample and
the observation matrix are only read: `sampleStep` returns neither.) -/
theorem sampleStep_frame (exp : α → α) (dim : Nat) (lmda eta beta : α)
    (sp : Sample α) (st : State α) (a b : Nat) (ha : a ≠ sp.i) (hb : b ≠ sp.j) :
    (sampleStep exp dim lmda eta beta sp st).U a = st.U a ∧
    (sampleStep exp dim lmda eta beta sp st).S b = st.S b ∧
    (sampleStep exp dim lmda eta beta sp st).eu a = st.eu a ∧
    (sampleStep exp dim lmda eta beta sp st).es b = st.es b ∧
    (sampleStep exp dim lmda eta beta sp st).predMatrix = st.predMatrix ∧
    (sampleStep exp dim lmda eta beta sp st).out = st.out := by
  refine ⟨sampleStep_U_other exp dim lmda eta beta sp st a ha,
    sampleStep_S_other exp dim lmda eta beta sp st b hb, ?_, ?_, rfl, rfl⟩
  · rw [sampleStep_eu_apply, if_neg ha]
  · rw [sampleStep_es_apply, if_neg hb]

/-- Witness for C16 over `ℚ`: sample `(0, 0, 1/2)`, rows and entries of index `1`. -/
theorem sampleStep_frame_witness :
    (1 : Nat) ≠ 0 ∧ (1 : Nat) ≠ 0 ∧
    (sampleStep (fun x : ℚ => 1 + x) 1 (1 / 100) (1 / 10) (1 / 2) ⟨0, 0, 1 / 2⟩
        (initState (fun _ _ => 1) (fun _ _ => 1) (fun _ _ => 0))).U 1 = (fun _ => 1) ∧
    (sampleStep (fun x : ℚ => 1 + x) 1 (1 / 100) (1 / 10) (1 / 2) ⟨0, 0, 1 / 2⟩
        (initState (fun _ _ => 1) (fun _ _ => 1) (fun _ _ => 0))).eu 1 = 1 :=
  ⟨by decide, by decide,
   (sampleStep_frame (fun x : ℚ => 1 + x) 1 (1 / 100) (1 / 10) (1 / 2) ⟨0, 0, 1 / 2⟩
      (initState (fun _ _ => 1) (fun _ _ => 1) (fun _ _ => 0)) 1 1 (by decide) (by decide)).1,
   (sampleStep_frame (fun x : ℚ => 1 + x) 1 (1 / 100) (1 / 10) (1 / 2) ⟨0, 0, 1 / 2⟩
      (initState (fun _ _ => 1) (fun _ _ => 1) (fun _ _ => 0)) 1 1 (by decide) (by decide)).2.2.1⟩

/-- Two loops whose bodies agree on every index below the bound compute the same result. -/
theorem forLoop_congr {σ : Type} (n : Nat) (f g : Nat → σ → σ)
    (h : ∀ i, i < n → ∀ acc, f i acc = g i acc) (init : σ) :
    forLoop n f init = forLoop n g init := by
  induction n with
  | zero => rfl
  | succ n ih =>
    rw [forLoop_succ, forLoop_succ, ih (fun i hi acc => h i (by omega) acc), h n (by omega)]

/-- C18: `loss` reads the prediction matrix only at the observed cells: two prediction
matrices that agree on every cell `(i, j)` of the range with `|M[i][j]| > 1e-10` give the
same loss; in particular the loss computed after `getPredMatrix(false, ...)` equals the
loss computed after `getPredMatrix(true, ...)` on the same buffer `Q`. -/
theorem loss_observed_only (exp : α → α) (U S M P Q R : Nat → Nat → α) (lmda : α)
    (numUser numService dim : Nat)
    (h : ∀ i j, i < numUser → j < numService → |M i j| > (1 / 10 ^ 10 : α) → P i j = R i j) :
    loss U S M P lmda numUser numService dim = loss U S M R lmda numUser numService dim ∧
    loss U S M (getPredMatrix exp false M U S numUser numService dim Q) lmda
        numUser numService dim =
      loss U S M (getPredMatrix exp true M U S numUser numService dim Q) lmda
        numUser numService dim := by
  have key : ∀ A B : Nat → Nat → α,
      (∀ i j, i < numUser → j < numService → |M i j| > (EPS : α) → A i j = B i j) →
      loss U S M A lmda numUser numService dim = loss U S M B lmda numUser numService dim := by
    intro A B hAB
    unfold loss
    have hcost : forLoop numUser (fun i acc =>
          forLoop numService (fun j acc =>
            if |M i j| > EPS then acc + 1 / 2 * sqr ((M i j - A i j) / M i j) else acc) acc) 0 =
        forLoop numUser (fun i acc =>
          forLoop numService (fun j acc =>
            if |M i j| > EPS then acc + 1 / 2 * sqr ((M i j - B i j) / M i j) else acc) acc) 0 := by
      refine forLoop_congr numUser _ _ (fun i hi acc => ?_) 0
      refine forLoop_congr numService _ _ (fun j hj acc2 => ?_) acc
      by_cases hobs : |M i j| > EPS
      · rw [if_pos hobs, if_pos hobs, hAB i j hi hj hobs]
      · rw [if_neg hobs, if_neg hobs]
    simp only []
    rw [hcost]
  refine ⟨key P R h, key _ _ ?_⟩
  intro i j hi hj hobs
  rw [getPredMatrix_apply, getPredMatrix_apply, if_pos ⟨hi, hj, Or.inr hobs⟩,
    if_pos ⟨hi, hj, Or.inl rfl⟩]

/-- Witness for C18 over `ℚ`: a `1 × 2` problem with the first cell observed; the two
prediction buffers agree on it and differ on the unobserved cell. -/
theorem loss_observed_only_witness :
    (∀ i j : Nat, i < 1 → j < 2 →
      |(fun (_ j : Nat) => if j = 0 then (1 : ℚ) else 0) i j| > (1 / 10 ^ 10 : ℚ) →
      (fun (_ j : Nat) => if j = 0 then (3 : ℚ) else 0) i j =
        (fun (_ j : Nat) => if j = 0 then (3 : ℚ) else 7) i j) ∧
    loss (fun _ _ => (1 : ℚ)) (fun _ _ => 1) (fun _ j => if j = 0 then 1 else 0)
        (fun _ j => if j = 0 then 3 else 0) (1 / 100) 1 2 1 =
      loss (fun _ _ => (1 : ℚ)) (fun _ _ => 1) (fun _ j => if j = 0 then 1 else 0)
        (fun _ j => if j = 0 then 3 else 7) (1 / 100) 1 2 1 := by
  have hyp : ∀ i j : Nat, i < 1 → j < 2 →
      |(fun (_ j : Nat) => if j = 0 then (1 : ℚ) else 0) i j| > (1 / 10 ^ 10 : ℚ) →
      (fun (_ j : Nat) => if j = 0 then (3 : ℚ) else 0) i j =
        (fun (_ j : Nat) => if j = 0 then (3 : ℚ) else 7) i j := by
    intro i j _ _ hobs
    by_cases hj0 : j = 0
    · simp [hj0]
    · simp [hj0] at hobs
      norm_num at hobs
  exact ⟨hyp, (loss_observed_only (fun x : ℚ => 1 + x) (fun _ _ => 1) (fun _ _ => 1)
    (fun _ j => if j = 0 then 1 else 0) (fun _ j => if j = 0 then 3 else 0) (fun _ _ => 0)
    (fun _ j => if j = 0 then 3 else 7) (1 / 100) 1 2 1 hyp).1⟩

/-- C19: over the reals, every cell that `getPredMatrix` writes (a cell of the range,
selected by the mode flag or by the observation test) holds a value strictly between `0`
and `1`, and so does every cell of the range of the prediction matrix returned by `AMF`. -/
theorem pred_proper_fraction (shuffle : Nat → List (Sample ℝ) → List (Sample ℝ))
    (M U S P : Nat → Nat → ℝ) (numUser numService dim : Nat) (lmda : ℝ) (maxIter : Nat)
    (eta beta : ℝ) (debugMode flag : Bool) (i j : Nat) (hi : i < numUser)
    (hj : j < numService) (hw : flag = true ∨ |M i j| > (1 / 10 ^ 10 : ℝ)) :
    (0 < getPredMatrix Real.exp flag M U S numUser numService dim P i j ∧
      getPredMatrix Real.exp flag M U S numUser numService dim P i j < 1) ∧
    (0 < (AMF Real.exp shuffle M numUser numService dim lmda maxIter eta beta debugMode
        U S P).predMatrix i j ∧
      (AMF Real.exp shuffle M numUser numService dim lmda maxIter eta beta debugMode
        U S P).predMatrix i j < 1) := by
  constructor
  · rw [getPredMatrix_apply, if_pos ⟨hi, hj, hw⟩]
    exact sigmoid_real_bounds _
  · rw [AMF_predMatrix_apply, if_pos ⟨hi, hj⟩]
    exact sigmoid_real_bounds _

/-- Witness for C19: a `1 × 1` problem in full mode, cell `(0, 0)`. -/
theorem pred_proper_fraction_witness :
    (0 : Nat) < 1 ∧ (0 : Nat) < 1 ∧
    ((true = true) ∨ |(fun _ _ => (0 : ℝ)) 0 0| > (1 / 10 ^ 10 : ℝ)) ∧
    (0 < getPredMatrix Real.exp true (fun _ _ => 0) (fun _ _ => 1) (fun _ _ => 1) 1 1 1
        (fun _ _ => 7) 0 0 ∧
      getPredMatrix Real.exp true (fun _ _ => 0) (fun _ _ => 1) (fun _ _ => 1) 1 1 1
        (fun _ _ => 7) 0 0 < 1) :=
  ⟨by decide, by decide, Or.inl rfl,
   (pred_proper_fraction (fun _ l => l) (fun _ _ => 0) (fun _ _ => 1) (fun _ _ => 1)
     (fun _ _ => 7) 1 1 1 (1 / 100) 1 (1 / 10) (1 / 2) false true 0 0 (by decide) (by decide)
     (Or.inl rfl)).1⟩

/-- Algebraic form of the logistic derivative: `1/(2 + e⁻ˣ + eˣ) = e⁻ˣ / (1 + e⁻ˣ)²`. -/
theorem grad_sigmoid_real_eq (x : ℝ) :
    grad_sigmoid Real.exp x = Real.exp (-x) / (1 + Real.exp (-x)) ^ 2 := by
  have ha := Real.exp_pos (-x)
  have hb := Real.exp_pos x
  have hab : Real.exp (-x) * Real.exp x = 1 := by
    rw [← Real.exp_add]; simp
  unfold grad_sigmoid
  rw [div_eq_div_iff (by positivity) (by positivity)]
  linear_combination (-1 : ℝ) * hab

/-- C15: over the reals, `grad_sigmoid x = 1/(2 + exp(-x) + exp x)` equals
`sigmoid x * (1 - sigmoid x)`, is the derivative of `sigmoid` at `x`, and is symmetric:
`grad_sigmoid (-x) = grad_sigmoid x`. -/
theorem grad_sigmoid_is_logistic_derivative (x : ℝ) :
    grad_sigmoid Real.exp x = 1 / (2 + Real.exp (-x) + Real.exp x) ∧
    grad_sigmoid Real.exp x = sigmoid Real.exp x * (1 - sigmoid Real.exp x) ∧
    HasDerivAt (sigmoid Real.exp) (grad_sigmoid Real.exp x) x ∧
    grad_sigmoid Real.exp (-x) = grad_sigmoid Real.exp x := by
  have ha := Real.exp_pos (-x)
  have hne : (1 + Real.exp (-x)) ≠ 0 := by positivity
  refine ⟨rfl, ?_, ?_, ?_⟩
  · rw [grad_sigmoid_real_eq]
    unfold sigmoid
    field_simp
    ring
  · have h1 : HasDerivAt (fun y : ℝ => Real.exp (-y)) (Real.exp (-x) * (-1)) x :=
      (Real.hasDerivAt_exp (-x)).comp x (hasDerivAt_neg x)
    have h2 : HasDerivAt (fun y : ℝ => 1 + Real.exp (-y)) (Real.exp (-x) * (-1)) x :=
      h1.const_add 1
    have h3 := h2.inv hne
    have hfun : sigmoid Real.exp = fun y : ℝ => (1 + Real.exp (-y))⁻¹ := by
      funext y
      simp [sigmoid]
    rw [hfun, grad_sigmoid_real_eq]
    convert h3 using 1
    ring
  · unfold grad_sigmoid
    rw [neg_neg]
    ring

/-- The sample vector after any number of epochs is a permutation of the initial one. -/
theorem trainLoop_samples_perm (exp : α → α) (shuffle : Nat → List (Sample α) → List (Sample α))
    (hshuffle : ∀ iter l, (shuffle iter l).Perm l)
    (M : Nat → Nat → α) (numUser numService dim : Nat) (lmda eta beta : α) (debugMode : Bool)
    (maxIter : Nat) (l : List (Sample α)) (st : State α) :
    (trainLoop exp shuffle M numUser numService dim lmda eta beta debugMode maxIter
      (l, st)).1.Perm l := by
  unfold trainLoop
  induction maxIter with
  | zero => exact List.Perm.refl l
  | succ n ih =>
    rw [forLoop_succ]
    exact (hshuffle n _).trans ih

/-- C14: under any shuffle that permutes the sample vector, every sample `(i, j, r)` of the
vector that epoch `iter` of `AMF` runs over (the extracted vector after the shuffles of
epochs `0, ..., iter`) satisfies `i < numUser`, `j < numService`, `r = M[i][j]` and
`|r| > 1e-10`, hence `r ≠ 0` and `r * r ≠ 0`: the divisors `rValue` and `sqr(rValue)` of the
per-sample update are nonzero and the row indices are in range (`0 ≤ i`, `0 ≤ j` hold by
type). -/
theorem processed_samples_valid (exp : α → α)
    (shuffle : Nat → List (Sample α) → List (Sample α))
    (hshuffle : ∀ iter l, (shuffle iter l).Perm l)
    (M : Nat → Nat → α) (numUser numService dim : Nat) (lmda eta beta : α) (debugMode : Bool)
    (U S P : Nat → Nat → α) (iter : Nat) (sp : Sample α)
    (hsp : sp ∈ shuffle iter
      (trainLoop exp shuffle M numUser numService dim lmda eta beta debugMode iter
        (extractSamples M numUser numService, initState U S P)).1) :
    sp.i < numUser ∧ sp.j < numService ∧ sp.r = M sp.i sp.j ∧ |sp.r| > (1 / 10 ^ 10 : α) ∧
    sp.r ≠ 0 ∧ sqr sp.r ≠ 0 ∧ sp.r ^ 2 ≠ 0 := by
  have hmem : sp ∈ extractSamples M numUser numService :=
    (trainLoop_samples_perm exp shuffle hshuffle M numUser numService dim lmda eta beta
      debugMode iter _ _).subset ((hshuffle iter _).subset hsp)
  rw [extractSamples_eq_spec, mem_samplesSpec] at hmem
  obtain ⟨hi, hj, hobs, hr⟩ := hmem
  have habs : |sp.r| > (1 / 10 ^ 10 : α) := by
    rw [hr]; exact hobs
  have hne : sp.r ≠ 0 := by
    intro h0
    rw [h0, abs_zero] at habs
    have : (0 : α) < 1 / 10 ^ 10 := by positivity
    exact lt_asymm habs this
  exact ⟨hi, hj, hr, habs, hne, mul_ne_zero hne hne, pow_ne_zero 2 hne⟩

/-- Witness for C14 over `ℚ`: a `1 × 1` problem with the observed cell `1/2`, the shuffle
that leaves the vector as it is, epoch `0`. -/
theorem processed_samples_valid_witness :
    (∀ (iter : Nat) (l : List (Sample ℚ)),
      ((fun (_ : Nat) (l : List (Sample ℚ)) => l) iter l).Perm l) ∧
    (⟨0, 0, 1 / 2⟩ : Sample ℚ) ∈ (fun (_ : Nat) (l : List (Sample ℚ)) => l) 0
      (trainLoop (fun x : ℚ => 1 + x) (fun _ l => l) (fun _ _ => 1 / 2) 1 1 1 (1 / 100)
        (1 / 10) (1 / 2) false 0
        (extractSamples (fun _ _ => (1 / 2 : ℚ)) 1 1,
          initState (fun _ _ => 1) (fun _ _ => 1) (fun _ _ => 0))).1 ∧
    (⟨0, 0, 1 / 2⟩ : Sample ℚ).r ≠ 0 := by
  have hperm : ∀ (iter : Nat) (l : List (Sample ℚ)),
      ((fun (_ : Nat) (l : List (Sample ℚ)) => l) iter l).Perm l := fun _ l => List.Perm.refl l
  have habs : |(1 / 2 : ℚ)| > 1 / 10 ^ 10 := by
    rw [abs_of_pos (by norm_num)]; norm_num
  have hmem : (⟨0, 0, 1 / 2⟩ : Sample ℚ) ∈ (fun (_ : Nat) (l : List (Sample ℚ)) => l) 0
      (trainLoop (fun x : ℚ => 1 + x) (fun _ l => l) (fun _ _ => 1 / 2) 1 1 1 (1 / 100)
        (1 / 10) (1 / 2) false 0
        (extractSamples (fun _ _ => (1 / 2 : ℚ)) 1 1,
          initState (fun _ _ => 1) (fun _ _ => 1) (fun _ _ => 0))).1 := by
    simp only [trainLoop, forLoop, extractSamples, EPS, habs, if_true, List.nil_append,
      List.mem_singleton]
  exact ⟨hperm, hmem,
    (processed_samples_valid (fun x : ℚ => 1 + x) (fun _ l => l) hperm (fun _ _ => 1 / 2) 1 1 1
      (1 / 100) (1 / 10) (1 / 2) false (fun _ _ => 1) (fun _ _ => 1) (fun _ _ => 0) 0
      ⟨0, 0, 1 / 2⟩ hmem).2.2.2.2.1⟩

/-- The progress record writes neither `eu` nor `es`. -/
theorem debugStep_confidence (exp : α → α) (M : Nat → Nat → α) (numUser numService dim : Nat)
    (lmda : α) (debugMode : Bool) (iter size s : Nat) (st : State α) :
    (debugStep exp M numUser numService dim lmda debugMode iter size s st).eu = st.eu ∧
    (debugStep exp M numUser numService dim lmda debugMode iter size s st).es = st.es := by
  unfold debugStep
  split_ifs <;> exact ⟨rfl, rfl⟩

/-- Two positive confidence values give weights strictly between `0` and `1`. -/
theorem weights_between (u v : α) (hu : 0 < u) (hv : 0 < v) :
    0 < wi u v ∧ wi u v < 1 ∧ 0 < wj u v ∧ wj u v < 1 := by
  have huv : 0 < u + v := add_pos hu hv
  unfold wi wj
  refine ⟨div_pos hu huv, ?_, div_pos hv huv, ?_⟩
  · rw [div_lt_one huv]; linarith
  · rw [div_lt_one huv]; linarith

/-- The value `beta*w*e + (1 - beta*w)*u` written to a confidence entry is positive when
`0 ≤ beta ≤ 1`, `0 < w < 1`, `0 ≤ e` and `0 < u`. -/
theorem blend_pos (beta w e u : α) (hb0 : 0 ≤ beta) (hb1 : beta ≤ 1) (hw0 : 0 < w)
    (hw1 : w < 1) (he : 0 ≤ e) (hu : 0 < u) :
    0 < beta * w * e + (1 - beta * w) * u := by
  have h1 : 0 ≤ beta * w * e := mul_nonneg (mul_nonneg hb0 hw0.le) he
  have h2 : beta * w ≤ 1 * w := mul_le_mul_of_nonneg_right hb1 hw0.le
  have h3 : 0 < (1 - beta * w) * u := mul_pos (by linarith) hu
  linarith

/-- One sample with a positive observed value and `0 ≤ beta ≤ 1` keeps all confidence
values positive. -/
theorem sampleStep_confidence_pos (exp : α → α) (dim : Nat) (lmda eta beta : α)
    (sp : Sample α) (st : State α) (hb0 : 0 ≤ beta) (hb1 : beta ≤ 1) (hr : 0 < sp.r)
    (heu : ∀ a, 0 < st.eu a) (hes : ∀ a, 0 < st.es a) :
    (∀ a, 0 < (sampleStep exp dim lmda eta beta sp st).eu a) ∧
    (∀ a, 0 < (sampleStep exp dim lmda eta beta sp st).es a) := by
  obtain ⟨hwi0, hwi1, hwj0, hwj1⟩ := weights_between _ _ (heu sp.i) (hes sp.j)
  have he : 0 ≤ eij (sigmoid exp (dotProduct (st.U sp.i) (st.S sp.j) dim)) sp.r :=
    div_nonneg (abs_nonneg _) hr.le
  constructor
  · intro a
    rw [sampleStep_eu_apply]
    split_ifs
    · exact blend_pos _ _ _ _ hb0 hb1 hwi0 hwi1 he (heu sp.i)
    · exact heu a
  · intro a
    rw [sampleStep_es_apply]
    split_ifs
    · exact blend_pos _ _ _ _ hb0 hb1 hwj0 hwj1 he (hes sp.j)
    · exact hes a

/-- Any run of per-sample updates with positive observed values and `0 ≤ beta ≤ 1` keeps
all confidence values positive. -/
theorem epochLoop_confidence_pos (exp : α → α) (M : Nat → Nat → α)
    (numUser numService dim : Nat) (lmda eta beta : α) (debugMode : Bool) (iter size : Nat)
    (hb0 : 0 ≤ beta) (hb1 : beta ≤ 1) (l : List (Sample α)) :
    ∀ (s : Nat) (st : State α), (∀ sp ∈ l, 0 < sp.r) →
      (∀ a, 0 < st.eu a) → (∀ a, 0 < st.es a) →
      (∀ a, 0 < (epochLoop exp M numUser numService dim lmda eta beta debugMode iter size
        s l st).eu a) ∧
      (∀ a, 0 < (epochLoop exp M numUser numService dim lmda eta beta debugMode iter size
        s l st).es a) := by
  induction l with
  | nil => intro s st _ heu hes; exact ⟨heu, hes⟩
  | cons sp rest ih =>
    intro s st hr heu hes
    simp only [epochLoop]
    obtain ⟨h1, h2⟩ := sampleStep_confidence_pos exp dim lmda eta beta sp st hb0 hb1
      (hr sp (List.mem_cons_self sp rest)) heu hes
    obtain ⟨d1, d2⟩ := debugStep_confidence exp M numUser numService dim lmda debugMode
      iter size s (sampleStep exp dim lmda eta beta sp st)
    refine ih (s + 1) _ (fun x hx => hr x (List.mem_cons_of_mem sp hx)) ?_ ?_
    · intro a; rw [d1]; exact h1 a
    · intro a; rw [d2]; exact h2 a

/-- C13 (amended): in exact arithmetic (any linearly ordered field, such as the reals: no
rounding, no underflow), starting from all-ones confidence vectors, after any sequence `l`
of per-sample updates (with or without progress records) in which `0 ≤ beta ≤ 1` and every
observed value `r` is positive, every entry of `eu` and of `es` is strictly positive; hence
`eu[a] + es[b]` is never zero and the weights `wi`, `wj` computed from any two entries lie
strictly between `0` and `1`. -/
theorem confidence_stays_positive (exp : α → α) (M : Nat → Nat → α)
    (numUser numService dim : Nat) (lmda eta beta : α) (debugMode : Bool) (iter size s : Nat)
    (l : List (Sample α)) (U S P : Nat → Nat → α) (a b : Nat)
    (hb0 : 0 ≤ beta) (hb1 : beta ≤ 1) (hr : ∀ sp ∈ l, 0 < sp.r) :
    0 < (epochLoop exp M numUser numService dim lmda eta beta debugMode iter size s l
      (initState U S P)).eu a ∧
    0 < (epochLoop exp M numUser numService dim lmda eta beta debugMode iter size s l
      (initState U S P)).es b ∧
    (epochLoop exp M numUser numService dim lmda eta beta debugMode iter size s l
      (initState U S P)).eu a +
      (epochLoop exp M numUser numService dim lmda eta beta debugMode iter size s l
        (initState U S P)).es b ≠ 0 ∧
    0 < wi ((epochLoop exp M numUser numService dim lmda eta beta debugMode iter size s l
        (initState U S P)).eu a)
      ((epochLoop exp M numUser numService dim lmda eta beta debugMode iter size s l
        (initState U S P)).es b) ∧
    wi ((epochLoop exp M numUser numService dim lmda eta beta debugMode iter size s l
        (initState U S P)).eu a)
      ((epochLoop exp M numUser numService dim lmda eta beta debugMode iter size s l
        (initState U S P)).es b) < 1 ∧
    0 < wj ((epochLoop exp M numUser numService dim lmda eta beta debugMode iter size s l
        (initState U S P)).eu a)
      ((epochLoop exp M numUser numService dim lmda eta beta debugMode iter size s l
        (initState U S P)).es b) ∧
    wj ((epochLoop exp M numUser numService dim lmda eta beta debugMode iter size s l
        (initState U S P)).eu a)
      ((epochLoop exp M numUser numService dim lmda eta beta debugMode iter size s l
        (initState U S P)).es b) < 1 := by
  obtain ⟨h1, h2⟩ := epochLoop_confidence_pos exp M numUser numService dim lmda eta beta
    debugMode iter size hb0 hb1 l s (initState U S P) hr
    (fun _ => zero_lt_one) (fun _ => zero_lt_one)
  obtain ⟨w1, w2, w3, w4⟩ := weights_between _ _ (h1 a) (h2 b)
  exact ⟨h1 a, h2 b, ne_of_gt (add_pos (h1 a) (h2 b)), w1, w2, w3, w4⟩

/-- Witness for C13 over `ℚ`: one update with the sample `(0, 0, 1/2)` and `beta = 1/2`. -/
theorem confidence_stays_positive_witness :
    (0 : ℚ) ≤ 1 / 2 ∧ (1 / 2 : ℚ) ≤ 1 ∧
    (∀ sp ∈ [(⟨0, 0, 1 / 2⟩ : Sample ℚ)], 0 < sp.r) ∧
    0 < (epochLoop (fun x : ℚ => 1 + x) (fun _ _ => 1 / 2) 1 1 1 (1 / 100) (1 / 10) (1 / 2)
      false 0 1 0 [⟨0, 0, 1 / 2⟩] (initState (fun _ _ => 1) (fun _ _ => 1) (fun _ _ => 0))).eu 0 := by
  have hr : ∀ sp ∈ [(⟨0, 0, 1 / 2⟩ : Sample ℚ)], 0 < sp.r := by
    intro sp hsp
    rw [List.mem_singleton] at hsp
    rw [hsp]
    norm_num
  exact ⟨by norm_num, by norm_num, hr,
    (confidence_stays_positive (fun x : ℚ => 1 + x) (fun _ _ => 1 / 2) 1 1 1 (1 / 100) (1 / 10)
      (1 / 2) false 0 1 0 [⟨0, 0, 1 / 2⟩] (fun _ _ => 1) (fun _ _ => 1) (fun _ _ => 0) 0 0
      (by norm_num) (by norm_num) hr).1⟩

/-- Two states with the same six components are equal. -/
theorem state_ext {β : Type} (st st2 : State β) (hU : st.U = st2.U) (hS : st.S = st2.S)
    (heu : st.eu = st2.eu) (hes : st.es = st2.es) (hP : st.predMatrix = st2.predMatrix)
    (ho : st.out = st2.out) : st = st2 := by
  cases st
  cases st2
  simp only [State.mk.injEq]
  exact ⟨hU, hS, heu, hes, hP, ho⟩

/-- What a sample `(i, j, r)` writes depends on the state only through row `i` of `U`,
row `j` of `S`, `eu[i]` and `es[j]`. -/
theorem sampleStep_rows_congr (exp : α → α) (dim : Nat) (lmda eta beta : α)
    (sp : Sample α) (st st2 : State α) (hU : st.U sp.i = st2.U sp.i)
    (hS : st.S sp.j = st2.S sp.j) (heu : st.eu sp.i = st2.eu sp.i)
    (hes : st.es sp.j = st2.es sp.j) :
    (sampleStep exp dim lmda eta beta sp st).U sp.i =
      (sampleStep exp dim lmda eta beta sp st2).U sp.i ∧
    (sampleStep exp dim lmda eta beta sp st).S sp.j =
      (sampleStep exp dim lmda eta beta sp st2).S sp.j ∧
    (sampleStep exp dim lmda eta beta sp st).eu sp.i =
      (sampleStep exp dim lmda eta beta sp st2).eu sp.i ∧
    (sampleStep exp dim lmda eta beta sp st).es sp.j =
      (sampleStep exp dim lmda eta beta sp st2).es sp.j := by
  refine ⟨?_, ?_, ?_, ?_⟩
  · funext b
    simp only [sampleStep, gradLoop_closed, hU, hS, heu, hes]
  · funext b
    simp only [sampleStep, gradLoop_closed, hU, hS, heu, hes]
  · rw [sampleStep_eu_apply, sampleStep_eu_apply, hU, hS, heu, hes]
  · rw [sampleStep_es_apply, sampleStep_es_apply, hU, hS, heu, hes]

/-- Two samples on distinct users and distinct services: the two per-sample steps commute. -/
theorem sampleStep_comm (exp : α → α) (dim : Nat) (lmda eta beta : α)
    (s1 s2 : Sample α) (st : State α) (hi : s1.i ≠ s2.i) (hj : s1.j ≠ s2.j) :
    sampleStep exp dim lmda eta beta s2 (sampleStep exp dim lmda eta beta s1 st) =
      sampleStep exp dim lmda eta beta s1 (sampleStep exp dim lmda eta beta s2 st) := by
  have e1U := sampleStep_U_other exp dim lmda eta beta s1 st s2.i (Ne.symm hi)
  have e1S := sampleStep_S_other exp dim lmda eta beta s1 st s2.j (Ne.symm hj)
  have e1u : (sampleStep exp dim lmda eta beta s1 st).eu s2.i = st.eu s2.i := by
    rw [sampleStep_eu_apply, if_neg (Ne.symm hi)]
  have e1s : (sampleStep exp dim lmda eta beta s1 st).es s2.j = st.es s2.j := by
    rw [sampleStep_es_apply, if_neg (Ne.symm hj)]
  have e2U := sampleStep_U_other exp dim lmda eta beta s2 st s1.i hi
  have e2S := sampleStep_S_other exp dim lmda eta beta s2 st s1.j hj
  have e2u : (sampleStep exp dim lmda eta beta s2 st).eu s1.i = st.eu s1.i := by
    rw [sampleStep_eu_apply, if_neg hi]
  have e2s : (sampleStep exp dim lmda eta beta s2 st).es s1.j = st.es s1.j := by
    rw [sampleStep_es_apply, if_neg hj]
  obtain ⟨c1U, c1S, c1u, c1s⟩ := sampleStep_rows_congr exp dim lmda eta beta s2
    (sampleStep exp dim lmda eta beta s1 st) st e1U e1S e1u e1s
  obtain ⟨c2U, c2S, c2u, c2s⟩ := sampleStep_rows_congr exp dim lmda eta beta s1
    (sampleStep exp dim lmda eta beta s2 st) st e2U e2S e2u e2s
  refine state_ext _ _ ?_ ?_ ?_ ?_ rfl rfl
  · funext a
    by_cases h2 : a = s2.i
    · subst h2
      rw [c1U, sampleStep_U_other _ _ _ _ _ s1 _ _ (Ne.symm hi)]
    · by_cases h1 : a = s1.i
      · subst h1
        rw [c2U, sampleStep_U_other _ _ _ _ _ s2 _ _ hi]
      · rw [sampleStep_U_other _ _ _ _ _ s2 _ _ h2, sampleStep_U_other _ _ _ _ _ s1 _ _ h1,
          sampleStep_U_other _ _ _ _ _ s1 _ _ h1, sampleStep_U_other _ _ _ _ _ s2 _ _ h2]
  · funext a
    by_cases h2 : a = s2.j
    · subst h2
      rw [c1S, sampleStep_S_other _ _ _ _ _ s1 _ _ (Ne.symm hj)]
    · by_cases h1 : a = s1.j
      · subst h1
        rw [c2S, sampleStep_S_other _ _ _ _ _ s2 _ _ hj]
      · rw [sampleStep_S_other _ _ _ _ _ s2 _ _ h2, sampleStep_S_other _ _ _ _ _ s1 _ _ h1,
          sampleStep_S_other _ _ _ _ _ s1 _ _ h1, sampleStep_S_other _ _ _ _ _ s2 _ _ h2]
  · funext a
    by_cases h2 : a = s2.i
    · subst h2
      rw [c1u, sampleStep_eu_apply _ _ _ _ _ s1 _ s2.i, if_neg (Ne.symm hi)]
    · by_cases h1 : a = s1.i
      · subst h1
        rw [c2u, sampleStep_eu_apply _ _ _ _ _ s2 _ s1.i, if_neg hi]
      · rw [sampleStep_eu_apply _ _ _ _ _ s2 _ a, if_neg h2,
          sampleStep_eu_apply _ _ _ _ _ s1 _ a, if_neg h1,
          sampleStep_eu_apply _ _ _ _ _ s1 _ a, if_neg h1,
          sampleStep_eu_apply _ _ _ _ _ s2 _ a, if_neg h2]
  · funext a
    by_cases h2 : a = s2.j
    · subst h2
      rw [c1s, sampleStep_es_apply _ _ _ _ _ s1 _ s2.j, if_neg (Ne.symm hj)]
    · by_cases h1 : a = s1.j
      · subst h1
        rw [c2s, sampleStep_es_apply _ _ _ _ _ s2 _ s1.j, if_neg hj]
      · rw [sampleStep_es_apply _ _ _ _ _ s2 _ a, if_neg h2,
          sampleStep_es_apply _ _ _ _ _ s1 _ a, if_neg h1,
          sampleStep_es_apply _ _ _ _ _ s1 _ a, if_neg h1,
          sampleStep_es_apply _ _ _ _ _ s2 _ a, if_neg h2]

/-- Without progress records, the sample loop of an epoch is the left fold of the
per-sample step over the sample vector. -/
theorem epochLoop_false_foldl (exp : α → α) (M : Nat → Nat → α) (numUser numService dim : Nat)
    (lmda eta beta : α) (iter size : Nat) (l : List (Sample α)) :
    ∀ (s : Nat) (st : State α),
      epochLoop exp M numUser numService dim lmda eta beta false iter size s l st =
        l.foldl (fun acc sp => sampleStep exp dim lmda eta beta sp acc) st := by
  induction l with
  | nil => intro s st; rfl
  | cons sp rest ih =>
    intro s st
    simp only [epochLoop, List.foldl_cons, debugStep_false]
    exact ih (s + 1) _

/-- An epoch without progress records over samples with pairwise distinct users and
pairwise distinct services gives the same state for every order of the samples. -/
theorem epochLoop_false_perm (exp : α → α) (M : Nat → Nat → α) (numUser numService dim : Nat)
    (lmda eta beta : α) (iter size s : Nat) (l l2 : List (Sample α)) (st : State α)
    (hdis : l.Pairwise (fun x y => x.i ≠ y.i ∧ x.j ≠ y.j)) (hperm : l2.Perm l) :
    epochLoop exp M numUser numService dim lmda eta beta false iter size s l2 st =
      epochLoop exp M numUser numService dim lmda eta beta false iter size s l st := by
  rw [epochLoop_false_foldl, epochLoop_false_foldl]
  have hsymm : Symmetric (fun x y : Sample α => x.i ≠ y.i ∧ x.j ≠ y.j) :=
    fun x y h => ⟨Ne.symm h.1, Ne.symm h.2⟩
  have hdis2 : l2.Pairwise (fun x y => x.i ≠ y.i ∧ x.j ≠ y.j) :=
    hdis.perm hperm.symm (fun h => hsymm h)
  refine List.Perm.foldl_eq' hperm ?_ st
  intro x hx y hy z
  by_cases hxy : x = y
  · rw [hxy]
  · obtain ⟨hi, hj⟩ := hdis2.forall hsymm hx hy hxy
    exact sampleStep_comm exp dim lmda eta beta x y z hi hj

/-- C17: for two samples with distinct users and distinct services, the two per-sample
steps applied in either order to the same state give the same state; consequently, for a
sample vector `l` with pairwise distinct users and pairwise distinct services and any
reordering `l2` of it, the epoch over `l2` ends with the same `U`, `S`, `eu` and `es` as the
epoch over `l` (with or without progress records). -/
theorem disjoint_samples_commute (exp : α → α) (M : Nat → Nat → α)
    (numUser numService dim : Nat) (lmda eta beta : α) (debugMode : Bool) (iter size s : Nat)
    (s1 s2 : Sample α) (l l2 : List (Sample α)) (st : State α)
    (hi : s1.i ≠ s2.i) (hj : s1.j ≠ s2.j)
    (hdis : l.Pairwise (fun x y => x.i ≠ y.i ∧ x.j ≠ y.j)) (hperm : l2.Perm l) :
    sampleStep exp dim lmda eta beta s2 (sampleStep exp dim lmda eta beta s1 st) =
      sampleStep exp dim lmda eta beta s1 (sampleStep exp dim lmda eta beta s2 st) ∧
    (epochLoop exp M numUser numService dim lmda eta beta debugMode iter size s l2 st).U =
      (epochLoop exp M numUser numService dim lmda eta beta debugMode iter size s l st).U ∧
    (epochLoop exp M numUser numService dim lmda eta beta debugMode iter size s l2 st).S =
      (epochLoop exp M numUser numService dim lmda eta beta debugMode iter size s l st).S ∧
    (epochLoop exp M numUser numService dim lmda eta beta debugMode iter size s l2 st).eu =
      (epochLoop exp M numUser numService dim lmda eta beta debugMode iter size s l st).eu ∧
    (epochLoop exp M numUser numService dim lmda eta beta debugMode iter size s l2 st).es =
      (epochLoop exp M numUser numService dim lmda eta beta debugMode iter size s l st).es := by
  have hT : trainingPart
      (epochLoop exp M numUser numService dim lmda eta beta debugMode iter size s l2 st) =
      trainingPart
        (epochLoop exp M numUser numService dim lmda eta beta debugMode iter size s l st) := by
    rw [epochLoop_trainingPart, epochLoop_trainingPart,
      epochLoop_false_perm exp M numUser numService dim lmda eta beta iter size s l l2 _
        hdis hperm]
  have hU := congrArg State.U hT
  have hS := congrArg State.S hT
  have heu := congrArg State.eu hT
  have hes := congrArg State.es hT
  simp only [trainingPart] at hU hS heu hes
  exact ⟨sampleStep_comm exp dim lmda eta beta s1 s2 st hi hj, hU, hS, heu, hes⟩

/-- Witness for C17 over `ℚ`: the samples `(0, 0, 1/2)` and `(1, 1, 4/5)` of the scenario,
in the two orders. -/
theorem disjoint_samples_commute_witness :
    (⟨0, 0, 1 / 2⟩ : Sample ℚ).i ≠ (⟨1, 1, 4 / 5⟩ : Sample ℚ).i ∧
    (⟨0, 0, 1 / 2⟩ : Sample ℚ).j ≠ (⟨1, 1, 4 / 5⟩ : Sample ℚ).j ∧
    [(⟨0, 0, 1 / 2⟩ : Sample ℚ), ⟨1, 1, 4 / 5⟩].Pairwise (fun x y => x.i ≠ y.i ∧ x.j ≠ y.j) ∧
    [(⟨1, 1, 4 / 5⟩ : Sample ℚ), ⟨0, 0, 1 / 2⟩].Perm [⟨0, 0, 1 / 2⟩, ⟨1, 1, 4 / 5⟩] ∧
    (epochLoop (fun x : ℚ => 1 + x) scenarioMatrix 2 2 1 (1 / 100) (1 / 10) (1 / 2) true 0 2 0
        [⟨1, 1, 4 / 5⟩, ⟨0, 0, 1 / 2⟩]
        (initState scenarioLatent scenarioLatent (fun _ _ => 0))).U =
      (epochLoop (fun x : ℚ => 1 + x) scenarioMatrix 2 2 1 (1 / 100) (1 / 10) (1 / 2) true 0 2 0
        [⟨0, 0, 1 / 2⟩, ⟨1, 1, 4 / 5⟩]
        (initState scenarioLatent scenarioLatent (fun _ _ => 0))).U := by
  have hi : (⟨0, 0, 1 / 2⟩ : Sample ℚ).i ≠ (⟨1, 1, 4 / 5⟩ : Sample ℚ).i := by decide
  have hj : (⟨0, 0, 1 / 2⟩ : Sample ℚ).j ≠ (⟨1, 1, 4 / 5⟩ : Sample ℚ).j := by decide
  have hdis : [(⟨0, 0, 1 / 2⟩ : Sample ℚ), ⟨1, 1, 4 / 5⟩].Pairwise
      (fun x y => x.i ≠ y.i ∧ x.j ≠ y.j) := by
    simp
  have hperm : [(⟨1, 1, 4 / 5⟩ : Sample ℚ), ⟨0, 0, 1 / 2⟩].Perm
      [⟨0, 0, 1 / 2⟩, ⟨1, 1, 4 / 5⟩] := List.Perm.swap _ _ []
  exact ⟨hi, hj, hdis, hperm,
    (disjoint_samples_commute (fun x : ℚ => 1 + x) scenarioMatrix 2 2 1 (1 / 100) (1 / 10)
      (1 / 2) true 0 2 0 ⟨0, 0, 1 / 2⟩ ⟨1, 1, 4 / 5⟩ [⟨0, 0, 1 / 2⟩, ⟨1, 1, 4 / 5⟩]
      [⟨1, 1, 4 / 5⟩, ⟨0, 0, 1 / 2⟩]
      (initState scenarioLatent scenarioLatent (fun _ _ => 0)) hi hj hdis hperm).2.1⟩

/-- Entry `k` of row `i` of `U` after a sample `(i, j, r)`. -/
theorem sampleStep_U_self (exp : α → α) (dim : Nat) (lmda eta beta : α)
    (sp : Sample α) (st : State α) (k : Nat) :
    (sampleStep exp dim lmda eta beta sp st).U sp.i k =
      if k < dim then
        st.U sp.i k - eta *
          (wi (st.eu sp.i) (st.es sp.j)
              * (sigmoid exp (dotProduct (st.U sp.i) (st.S sp.j) dim) - sp.r)
              * grad_sigmoid exp (dotProduct (st.U sp.i) (st.S sp.j) dim)
              * st.S sp.j k / sqr sp.r
            + lmda * st.U sp.i k)
      else st.U sp.i k := by
  simp [sampleStep, gradLoop_closed]

/-- Entry `k` of row `j` of `S` after a sample `(i, j, r)`. -/
theorem sampleStep_S_self (exp : α → α) (dim : Nat) (lmda eta beta : α)
    (sp : Sample α) (st : State α) (k : Nat) :
    (sampleStep exp dim lmda eta beta sp st).S sp.j k =
      if k < dim then
        st.S sp.j k - eta *
          (wj (st.eu sp.i) (st.es sp.j)
              * (sigmoid exp (dotProduct (st.U sp.i) (st.S sp.j) dim) - sp.r)
              * grad_sigmoid exp (dotProduct (st.U sp.i) (st.S sp.j) dim)
              * st.U sp.i k / sqr sp.r
            + lmda * st.S sp.j k)
      else st.S sp.j k := by
  simp [sampleStep, gradLoop_closed]

/-- Over the reals the squashing function is strictly increasing. -/
theorem sigmoid_real_strictMono {x y : ℝ} (h : x < y) :
    sigmoid Real.exp x < sigmoid Real.exp y := by
  unfold sigmoid
  have hx := Real.exp_pos (-x)
  have hy := Real.exp_pos (-y)
  have hlt : Real.exp (-y) < Real.exp (-x) := Real.exp_lt_exp.mpr (by linarith)
  exact one_div_lt_one_div_of_lt (by positivity) (by linarith)

/-- Numeric enclosures of `exp(-1)`, `sigmoid 1` and `grad_sigmoid 1` over the reals. -/
theorem scenario_numeric_bounds :
    (3678 / 10000 : ℝ) < Real.exp (-1) ∧ Real.exp (-1) < 3679 / 10000 ∧
    (731 / 1000 : ℝ) < sigmoid Real.exp 1 ∧ sigmoid Real.exp 1 < 7312 / 10000 ∧
    (1965 / 10000 : ℝ) < grad_sigmoid Real.exp 1 ∧ grad_sigmoid Real.exp 1 < 1967 / 10000 := by
  have hE1 : (27182 / 10000 : ℝ) < Real.exp 1 := by
    have := Real.exp_one_gt_d9
    linarith
  have hE2 : Real.exp 1 < (27183 / 10000 : ℝ) := by
    have := Real.exp_one_lt_d9
    linarith
  have hx0 := Real.exp_pos (-1)
  have hxE : Real.exp (-1) * Real.exp 1 = 1 := by
    rw [← Real.exp_add]; simp
  have hx1 : (3678 / 10000 : ℝ) < Real.exp (-1) := by
    by_contra hcon
    push_neg at hcon
    nlinarith
  have hx2 : Real.exp (-1) < (3679 / 10000 : ℝ) := by
    by_contra hcon
    push_neg at hcon
    nlinarith
  refine ⟨hx1, hx2, ?_, ?_, ?_, ?_⟩
  · unfold sigmoid
    rw [lt_div_iff₀ (by positivity)]
    linarith
  · unfold sigmoid
    rw [div_lt_iff₀ (by positivity)]
    linarith
  · unfold grad_sigmoid
    rw [lt_div_iff₀ (by positivity)]
    linarith
  · unfold grad_sigmoid
    rw [div_lt_iff₀ (by positivity)]
    linarith

/-- Over the reals the squashing function is at least `1/2` on nonnegative arguments. -/
theorem sigmoid_real_ge_half {x : ℝ} (h : 0 ≤ x) : 1 / 2 ≤ sigmoid Real.exp x := by
  unfold sigmoid
  have hx := Real.exp_pos (-x)
  have hle : Real.exp (-x) ≤ 1 := Real.exp_le_one_iff.mpr (by linarith)
  rw [div_le_div_iff₀ (by norm_num) (by positivity)]
  linarith

/-- Over the reals the squashing function stays below `4/5` up to the argument `21/20`. -/
theorem sigmoid_real_lt_four_fifths {x : ℝ} (h : x ≤ 21 / 20) : sigmoid Real.exp x < 4 / 5 := by
  unfold sigmoid
  have hmono : Real.exp (-(21 / 20 : ℝ)) ≤ Real.exp (-x) := Real.exp_le_exp.mpr (by linarith)
  have hsplit : Real.exp (-(21 / 20 : ℝ)) = Real.exp (-1) * Real.exp (-(1 / 20 : ℝ)) := by
    rw [← Real.exp_add]
    norm_num
  have hsmall : (-(1 / 20 : ℝ)) + 1 ≤ Real.exp (-(1 / 20 : ℝ)) := Real.add_one_le_exp _
  have hx1 := scenario_numeric_bounds.1
  have hprod : (3678 / 10000 : ℝ) * (19 / 20) ≤ Real.exp (-1) * Real.exp (-(1 / 20 : ℝ)) :=
    mul_le_mul hx1.le (by linarith) (by norm_num) (Real.exp_pos _).le
  have hx := Real.exp_pos (-x)
  rw [div_lt_iff₀ (by positivity)]
  linarith

/-- The scenario's per-sample step on rows equal to `[1.0]` with confidence values `1`:
the new dot product `U[i]·S[j]` is the square of the common new entry. -/
theorem scenario_step_dot (sp : Sample ℝ) (st : State ℝ)
    (heu : st.eu sp.i = 1) (hes : st.es sp.j = 1)
    (hU : st.U sp.i = fun _ => 1) (hS : st.S sp.j = fun _ => 1) :
    dotProduct ((sampleStep Real.exp 1 (1 / 100) (1 / 10) (1 / 2) sp st).U sp.i)
        ((sampleStep Real.exp 1 (1 / 100) (1 / 10) (1 / 2) sp st).S sp.j) 1 =
      (1 - 1 / 10 * (1 / 2 * (sigmoid Real.exp 1 - sp.r) * grad_sigmoid Real.exp 1
        / (sp.r * sp.r) + 1 / 100)) ^ 2 := by
  have hd : dotProduct (fun _ : Nat => (1 : ℝ)) (fun _ => 1) 1 = 1 := by
    norm_num [dotProduct, forLoop]
  have hw1 : wi (1 : ℝ) 1 = 1 / 2 := by norm_num [wi]
  have hw2 : wj (1 : ℝ) 1 = 1 / 2 := by norm_num [wj]
  simp only [dotProduct, forLoop]
  rw [sampleStep_U_self, sampleStep_S_self, if_pos (by decide), if_pos (by decide),
    heu, hes, hU, hS, hd, hw1, hw2]
  simp only [sqr]
  ring

/-- Arithmetic of the scenario for the observed value `0.5`: with `p`, `g` in the
enclosures of `sigmoid 1`, `grad_sigmoid 1`, the square of the new entry is below `1`. -/
theorem scenario_entry_half (p g : ℝ) (hp1 : 731 / 1000 < p) (hp2 : p < 7312 / 10000)
    (hg1 : 1965 / 10000 < g) (hg2 : g < 1967 / 10000) :
    (1 - 1 / 10 * (1 / 2 * (p - 1 / 2) * g / (1 / 2 * (1 / 2)) + 1 / 100)) ^ 2 < 1 := by
  have hgrad : 1 / 2 * (p - 1 / 2) * g / (1 / 2 * (1 / 2)) = 2 * ((p - 1 / 2) * g) := by
    ring
  rw [hgrad]
  have hprod1 : 0 < (p - 1 / 2) * g := mul_pos (by linarith) (by linarith)
  have hprod2 : (p - 1 / 2) * g < 1 := by nlinarith
  have hc1 : 1 - 1 / 10 * (2 * ((p - 1 / 2) * g) + 1 / 100) < 1 := by linarith
  have hc2 : 0 < 1 - 1 / 10 * (2 * ((p - 1 / 2) * g) + 1 / 100) := by linarith
  nlinarith

/-- Arithmetic of the scenario for the observed value `0.8`: with `p`, `g` in the
enclosures of `sigmoid 1`, `grad_sigmoid 1`, the square of the new entry lies in `(1, 21/20]`. -/
theorem scenario_entry_four_fifths (p g : ℝ) (hp1 : 731 / 1000 < p) (hp2 : p < 7312 / 10000)
    (hg1 : 1965 / 10000 < g) (hg2 : g < 1967 / 10000) :
    1 < (1 - 1 / 10 * (1 / 2 * (p - 4 / 5) * g / (4 / 5 * (4 / 5)) + 1 / 100)) ^ 2 ∧
    (1 - 1 / 10 * (1 / 2 * (p - 4 / 5) * g / (4 / 5 * (4 / 5)) + 1 / 100)) ^ 2 ≤ 21 / 20 := by
  have hgrad : 1 / 2 * (p - 4 / 5) * g / (4 / 5 * (4 / 5)) = -(25 / 32 * ((4 / 5 - p) * g)) := by
    ring
  rw [hgrad]
  have hprod1 : (688 / 10000 : ℝ) * (1965 / 10000) < (4 / 5 - p) * g := by
    have h1 : (688 / 10000 : ℝ) < 4 / 5 - p := by linarith
    have h2 : (0 : ℝ) < 4 / 5 - p := by linarith
    nlinarith [mul_pos h2 (sub_pos.mpr hg1)]
  have hprod2 : (4 / 5 - p) * g < (69 / 1000 : ℝ) * (1967 / 10000) := by
    have h1 : 4 / 5 - p < (69 / 1000 : ℝ) := by linarith
    have h2 : (0 : ℝ) < 4 / 5 - p := by linarith
    nlinarith [mul_pos h2 (sub_pos.mpr hg2)]
  have hc1 : 1 < 1 - 1 / 10 * (-(25 / 32 * ((4 / 5 - p) * g)) + 1 / 100) := by
    linarith
  have hc2 : 1 - 1 / 10 * (-(25 / 32 * ((4 / 5 - p) * g)) + 1 / 100) < 101 / 100 := by
    linarith
  constructor
  · nlinarith
  · nlinarith

/-- Numeric core of the scenario for the observed value `0.5`. -/
theorem scenario_target_half :
    sigmoid Real.exp ((1 - 1 / 10 * (1 / 2 * (sigmoid Real.exp 1 - 1 / 2) * grad_sigmoid Real.exp 1
        / (1 / 2 * (1 / 2)) + 1 / 100)) ^ 2) < sigmoid Real.exp 1 ∧
    |sigmoid Real.exp ((1 - 1 / 10 * (1 / 2 * (sigmoid Real.exp 1 - 1 / 2)
        * grad_sigmoid Real.exp 1 / (1 / 2 * (1 / 2)) + 1 / 100)) ^ 2) - 1 / 2| <
      |sigmoid Real.exp 1 - 1 / 2| := by
  obtain ⟨_, _, hp1, hp2, hg1, hg2⟩ := scenario_numeric_bounds
  have hsq := scenario_entry_half _ _ hp1 hp2 hg1 hg2
  have hlt := sigmoid_real_strictMono hsq
  have hge := sigmoid_real_ge_half (sq_nonneg
    (1 - 1 / 10 * (1 / 2 * (sigmoid Real.exp 1 - 1 / 2) * grad_sigmoid Real.exp 1
        / (1 / 2 * (1 / 2)) + 1 / 100)))
  refine ⟨hlt, ?_⟩
  rw [abs_of_nonneg (sub_nonneg.mpr hge), abs_of_pos (by linarith)]
  exact sub_lt_sub_right hlt _

/-- Numeric core of the scenario for the observed value `0.8`. -/
theorem scenario_target_four_fifths :
    sigmoid Real.exp 1 <
      sigmoid Real.exp ((1 - 1 / 10 * (1 / 2 * (sigmoid Real.exp 1 - 4 / 5)
        * grad_sigmoid Real.exp 1 / (4 / 5 * (4 / 5)) + 1 / 100)) ^ 2) ∧
    |sigmoid Real.exp ((1 - 1 / 10 * (1 / 2 * (sigmoid Real.exp 1 - 4 / 5)
        * grad_sigmoid Real.exp 1 / (4 / 5 * (4 / 5)) + 1 / 100)) ^ 2) - 4 / 5| <
      |sigmoid Real.exp 1 - 4 / 5| := by
  obtain ⟨_, _, hp1, hp2, hg1, hg2⟩ := scenario_numeric_bounds
  obtain ⟨hsq1, hsq2⟩ := scenario_entry_four_fifths _ _ hp1 hp2 hg1 hg2
  have hlt := sigmoid_real_strictMono hsq1
  have hup := sigmoid_real_lt_four_fifths hsq2
  refine ⟨hlt, ?_⟩
  rw [abs_of_neg (sub_neg.mpr hup), abs_of_neg (by linarith)]
  exact neg_lt_neg (sub_lt_sub_right hlt _)

/-- After two samples on distinct users and distinct services, the rows of each sample are
the ones its own step writes from the starting state. -/
theorem two_steps_rows (exp : α → α) (dim : Nat) (lmda eta beta : α)
    (sA sB : Sample α) (st : State α) (hi : sA.i ≠ sB.i) (hj : sA.j ≠ sB.j) :
    (sampleStep exp dim lmda eta beta sB (sampleStep exp dim lmda eta beta sA st)).U sA.i =
      (sampleStep exp dim lmda eta beta sA st).U sA.i ∧
    (sampleStep exp dim lmda eta beta sB (sampleStep exp dim lmda eta beta sA st)).S sA.j =
      (sampleStep exp dim lmda eta beta sA st).S sA.j ∧
    (sampleStep exp dim lmda eta beta sB (sampleStep exp dim lmda eta beta sA st)).U sB.i =
      (sampleStep exp dim lmda eta beta sB st).U sB.i ∧
    (sampleStep exp dim lmda eta beta sB (sampleStep exp dim lmda eta beta sA st)).S sB.j =
      (sampleStep exp dim lmda eta beta sB st).S sB.j := by
  refine ⟨sampleStep_U_other _ _ _ _ _ sB _ _ hi, sampleStep_S_other _ _ _ _ _ sB _ _ hj, ?_, ?_⟩
  · rw [sampleStep_comm exp dim lmda eta beta sA sB st hi hj]
    exact sampleStep_U_other _ _ _ _ _ sA _ _ (Ne.symm hi)
  · rw [sampleStep_comm exp dim lmda eta beta sA sB st hi hj]
    exact sampleStep_S_other _ _ _ _ _ sA _ _ (Ne.symm hj)

/-- The scenario's two samples processed one after the other from all-ones rows and
confidence values: each new dot product `U[i]·S[j]` is the square of the entry written by
the sample's own step. -/
theorem scenario_two_steps_dot (sA sB : Sample ℝ) (st : State ℝ)
    (hi : sA.i ≠ sB.i) (hj : sA.j ≠ sB.j)
    (heu : ∀ a, st.eu a = 1) (hes : ∀ a, st.es a = 1)
    (hU : ∀ a, st.U a = fun _ => 1) (hS : ∀ a, st.S a = fun _ => 1) :
    dotProduct
        ((sampleStep Real.exp 1 (1 / 100) (1 / 10) (1 / 2) sB
          (sampleStep Real.exp 1 (1 / 100) (1 / 10) (1 / 2) sA st)).U sA.i)
        ((sampleStep Real.exp 1 (1 / 100) (1 / 10) (1 / 2) sB
          (sampleStep Real.exp 1 (1 / 100) (1 / 10) (1 / 2) sA st)).S sA.j) 1 =
      (1 - 1 / 10 * (1 / 2 * (sigmoid Real.exp 1 - sA.r) * grad_sigmoid Real.exp 1
        / (sA.r * sA.r) + 1 / 100)) ^ 2 ∧
    dotProduct
        ((sampleStep Real.exp 1 (1 / 100) (1 / 10) (1 / 2) sB
          (sampleStep Real.exp 1 (1 / 100) (1 / 10) (1 / 2) sA st)).U sB.i)
        ((sampleStep Real.exp 1 (1 / 100) (1 / 10) (1 / 2) sB
          (sampleStep Real.exp 1 (1 / 100) (1 / 10) (1 / 2) sA st)).S sB.j) 1 =
      (1 - 1 / 10 * (1 / 2 * (sigmoid Real.exp 1 - sB.r) * grad_sigmoid Real.exp 1
        / (sB.r * sB.r) + 1 / 100)) ^ 2 := by
  obtain ⟨r1, r2, r3, r4⟩ := two_steps_rows Real.exp 1 (1 / 100) (1 / 10) (1 / 2) sA sB st hi hj
  rw [r1, r2, r3, r4]
  exact ⟨scenario_step_dot sA st (heu _) (hes _) (hU _) (hS _),
    scenario_step_dot sB st (heu _) (hes _) (hU _) (hS _)⟩

/-- C11: in the scenario (`2 × 2` matrix `[[0.5, 0], [0, 0.8]]`, `dim = 1`,
`U = S = [[1], [1]]`, `lmda = 0.01`, `eta = 0.1`, `beta = 0.5`, `maxIter = 1`) over the reals,
for every shuffle that permutes the sample vector and either value of `debugMode`: the
initial prediction of both observed cells is `sigmoid 1`; with the returned `U`, `S`,
`sigmoid (U[0]·S[0])` is below `sigmoid 1` and closer to `0.5` than `sigmoid 1`, and
`sigmoid (U[1]·S[1])` is above `sigmoid 1` and closer to `0.8` than `sigmoid 1`. -/
theorem scenario_moves_toward_targets (shuffle : Nat → List (Sample ℝ) → List (Sample ℝ))
    (hshuffle : ∀ l, (shuffle 0 l).Perm l) (debugMode : Bool) (P : Nat → Nat → ℝ) :
    sigmoid Real.exp (dotProduct ((scenarioLatent : Nat → Nat → ℝ) 0) (scenarioLatent 0) 1) =
      sigmoid Real.exp 1 ∧
    sigmoid Real.exp (dotProduct ((scenarioLatent : Nat → Nat → ℝ) 1) (scenarioLatent 1) 1) =
      sigmoid Real.exp 1 ∧
    sigmoid Real.exp (dotProduct
        ((AMF Real.exp shuffle scenarioMatrix 2 2 1 (1 / 100) 1 (1 / 10) (1 / 2) debugMode
          scenarioLatent scenarioLatent P).U 0)
        ((AMF Real.exp shuffle scenarioMatrix 2 2 1 (1 / 100) 1 (1 / 10) (1 / 2) debugMode
          scenarioLatent scenarioLatent P).S 0) 1) < sigmoid Real.exp 1 ∧
    |sigmoid Real.exp (dotProduct
        ((AMF Real.exp shuffle scenarioMatrix 2 2 1 (1 / 100) 1 (1 / 10) (1 / 2) debugMode
          scenarioLatent scenarioLatent P).U 0)
        ((AMF Real.exp shuffle scenarioMatrix 2 2 1 (1 / 100) 1 (1 / 10) (1 / 2) debugMode
          scenarioLatent scenarioLatent P).S 0) 1) - 1 / 2| < |sigmoid Real.exp 1 - 1 / 2| ∧
    sigmoid Real.exp 1 < sigmoid Real.exp (dotProduct
        ((AMF Real.exp shuffle scenarioMatrix 2 2 1 (1 / 100) 1 (1 / 10) (1 / 2) debugMode
          scenarioLatent scenarioLatent P).U 1)
        ((AMF Real.exp shuffle scenarioMatrix 2 2 1 (1 / 100) 1 (1 / 10) (1 / 2) debugMode
          scenarioLatent scenarioLatent P).S 1) 1) ∧
    |sigmoid Real.exp (dotProduct
        ((AMF Real.exp shuffle scenarioMatrix 2 2 1 (1 / 100) 1 (1 / 10) (1 / 2) debugMode
          scenarioLatent scenarioLatent P).U 1)
        ((AMF Real.exp shuffle scenarioMatrix 2 2 1 (1 / 100) 1 (1 / 10) (1 / 2) debugMode
          scenarioLatent scenarioLatent P).S 1) 1) - 4 / 5| < |sigmoid Real.exp 1 - 4 / 5| := by
  have hd : ∀ a : Nat,
      dotProduct ((scenarioLatent : Nat → Nat → ℝ) a) (scenarioLatent a) 1 = 1 := by
    intro a
    norm_num [dotProduct, forLoop, scenarioLatent]
  have hT := AMF_trainingPart Real.exp shuffle scenarioMatrix 2 2 1 (1 / 100) 1 (1 / 10) (1 / 2)
    debugMode scenarioLatent scenarioLatent P
  have hU := congrArg State.U hT
  have hS := congrArg State.S hT
  simp only [trainingPart] at hU hS
  rw [hU, hS, hd 0, hd 1, scenario_samples]
  refine ⟨rfl, rfl, ?_⟩
  have hperm := hshuffle [(⟨0, 0, 1 / 2⟩ : Sample ℝ), ⟨1, 1, 4 / 5⟩]
  simp only [trainLoop, forLoop]
  rcases perm_pair_cases hperm with h | h
  · rw [h]
    simp only [epochLoop, debugStep_false]
    obtain ⟨e0, e1⟩ := scenario_two_steps_dot ⟨0, 0, 1 / 2⟩ ⟨1, 1, 4 / 5⟩
      (trainingPart (initState scenarioLatent scenarioLatent P))
      (by decide) (by decide) (fun _ => rfl) (fun _ => rfl) (fun _ => rfl) (fun _ => rfl)
    simp only [trainingPart] at e0 e1
    rw [e0, e1]
    exact ⟨scenario_target_half.1, scenario_target_half.2,
      scenario_target_four_fifths.1, scenario_target_four_fifths.2⟩
  · rw [h]
    simp only [epochLoop, debugStep_false]
    obtain ⟨e1, e0⟩ := scenario_two_steps_dot ⟨1, 1, 4 / 5⟩ ⟨0, 0, 1 / 2⟩
      (trainingPart (initState scenarioLatent scenarioLatent P))
      (by decide) (by decide) (fun _ => rfl) (fun _ => rfl) (fun _ => rfl) (fun _ => rfl)
    simp only [trainingPart] at e0 e1
    rw [e0, e1]
    exact ⟨scenario_target_half.1, scenario_target_half.2,
      scenario_target_four_fifths.1, scenario_target_four_fifths.2⟩

/-- Witness for C11: the shuffle that reverses the sample vector, with progress records on. -/
theorem scenario_moves_toward_targets_witness :
    (∀ l : List (Sample ℝ), ((fun (_ : Nat) (l : List (Sample ℝ)) => l.reverse) 0 l).Perm l) ∧
    |sigmoid Real.exp (dotProduct
        ((AMF Real.exp (fun _ l => l.reverse) scenarioMatrix 2 2 1 (1 / 100) 1 (1 / 10) (1 / 2)
          true scenarioLatent scenarioLatent (fun _ _ => 0)).U 1)
        ((AMF Real.exp (fun _ l => l.reverse) scenarioMatrix 2 2 1 (1 / 100) 1 (1 / 10) (1 / 2)
          true scenarioLatent scenarioLatent (fun _ _ => 0)).S 1) 1) - 4 / 5| <
      |sigmoid Real.exp 1 - 4 / 5| :=
  ⟨fun l => List.reverse_perm l,
   (scenario_moves_toward_targets (fun _ l => l.reverse) (fun l => List.reverse_perm l) true
     (fun _ _ => 0)).2.2.2.2.2⟩

/-- Rounding to the nearest integer leaves an integer as it is. -/
theorem roundHalfEven_intCast (n : ℤ) : Double.roundHalfEven (n : ℚ) = n := by
  simp [Double.roundHalfEven]

/-- A magnitude `m * 2 ^ e` with `0 < m < 2 ^ 53`, `e ≥ -1074`, below `2 ^ 1024`, is a double:
rounding leaves it as it is. -/
theorem double_round_representable (s : Bool) (m : ℕ) (e : ℤ) (hm0 : 0 < m) (hm : m < 2 ^ 53)
    (he : -1074 ≤ e) (hlt : (m : ℚ) * 2 ^ e < 2 ^ 1024) :
    Double.round s ((m : ℚ) * 2 ^ e) = Double.finite s ((m : ℚ) * 2 ^ e) := by
  have hpos : (0 : ℚ) < (m : ℚ) * 2 ^ e := by positivity
  have hlog : Int.log 2 ((m : ℚ) * 2 ^ e) < e + 53 := by
    rw [← Int.lt_zpow_iff_log_lt (by norm_num) hpos]
    have h1 : ((m : ℚ)) < 2 ^ (53 : ℤ) := by
      rw [show (53 : ℤ) = ((53 : ℕ) : ℤ) from rfl, zpow_natCast]
      exact_mod_cast hm
    have h2 : (2 : ℚ) ^ (e + 53) = 2 ^ (53 : ℤ) * 2 ^ e := by
      rw [add_comm, zpow_add₀ (by norm_num)]
    push_cast
    rw [h2]
    exact mul_lt_mul_of_pos_right h1 (by positivity)
  have hk : 0 ≤ e - (max (Int.log 2 ((m : ℚ) * 2 ^ e)) (-1022) - 52) := by
    have : max (Int.log 2 ((m : ℚ) * 2 ^ e)) (-1022) ≤ e + 52 := max_le (by omega) (by omega)
    omega
  obtain ⟨k, hk'⟩ := Int.eq_ofNat_of_zero_le hk
  have hq : (m : ℚ) * 2 ^ e / Double.quantum ((m : ℚ) * 2 ^ e) = ((m * 2 ^ k : ℕ) : ℤ) := by
    unfold Double.quantum
    rw [mul_div_assoc, ← zpow_sub₀ (by norm_num), hk']
    push_cast
    rw [zpow_natCast]
  have hback : (((m * 2 ^ k : ℕ) : ℤ) : ℚ) * Double.quantum ((m : ℚ) * 2 ^ e) = (m : ℚ) * 2 ^ e := by
    rw [← hq]
    have : Double.quantum ((m : ℚ) * 2 ^ e) ≠ 0 := by unfold Double.quantum; positivity
    field_simp
  unfold Double.round
  rw [if_neg hpos.ne', hq, roundHalfEven_intCast, hback, if_pos hlt]

/-- The powers of two from `2 ^ (-1074)` to `2 ^ 1023` are doubles. -/
theorem double_round_zpow (s : Bool) (z : ℤ) (h1 : -1074 ≤ z) (h2 : z ≤ 1023) :
    Double.round s (2 ^ z) = Double.finite s (2 ^ z) := by
  have h := double_round_representable s 1 z (by norm_num) (by norm_num) h1 (by
    rw [Nat.cast_one, one_mul, ← zpow_natCast, Nat.cast_ofNat]
    exact zpow_lt_zpow_right₀ (by norm_num) (by omega))
  rwa [Nat.cast_one, one_mul] at h

theorem half_pow_eq_zpow (n : ℕ) : ((1 / 2 : ℚ)) ^ n = 2 ^ (-(n : ℤ)) := by
  rw [zpow_neg, zpow_natCast, one_div, inv_pow]

theorem double_round_half_pow (s : Bool) (n : ℕ) (hn : n ≤ 1074) :
    Double.round s ((1 / 2 : ℚ) ^ n) = Double.finite s ((1 / 2 : ℚ) ^ n) := by
  rw [half_pow_eq_zpow]
  exact double_round_zpow s _ (by omega) (by omega)

theorem double_round_two_mul_half_pow (s : Bool) (n : ℕ) (hn : n ≤ 1074) :
    Double.round s (2 * (1 / 2 : ℚ) ^ n) = Double.finite s (2 * (1 / 2 : ℚ) ^ n) := by
  have h : 2 * (1 / 2 : ℚ) ^ n = 2 ^ (1 - (n : ℤ)) := by
    rw [half_pow_eq_zpow, sub_eq_add_neg, zpow_add₀ (by norm_num), zpow_one]
  rw [h]
  exact double_round_zpow s _ (by omega) (by omega)

/-- Underflow: `2 ^ (-1075)` lies halfway between `0` and the least positive double
`2 ^ (-1074)`, and rounds to the even neighbour `0`. -/
theorem double_round_tie_to_zero (s : Bool) : Double.round s ((1 / 2 : ℚ) ^ 1075) = Double.finite s 0 := by
  have hz : ((1 / 2 : ℚ)) ^ 1075 = 2 ^ (-1075 : ℤ) := by
    rw [half_pow_eq_zpow]; norm_num
  rw [hz]
  have hlog : Int.log 2 ((2 : ℚ) ^ (-1075 : ℤ)) = -1075 := by
    have h := @Int.log_zpow ℚ _ _ 2 (by norm_num) (-1075)
    rwa [Nat.cast_ofNat] at h
  have hq : Double.quantum ((2 : ℚ) ^ (-1075 : ℤ)) = 2 ^ (-1074 : ℤ) := by
    unfold Double.quantum
    rw [hlog]
    norm_num
  have hdiv : (2 : ℚ) ^ (-1075 : ℤ) / 2 ^ (-1074 : ℤ) = 1 / 2 := by
    rw [← zpow_sub₀ (by norm_num)]
    norm_num
  have hfl : ⌊(1 / 2 : ℚ)⌋ = 0 := by
    rw [Int.floor_eq_zero_iff]
    constructor <;> norm_num
  have hr : Double.roundHalfEven (1 / 2 : ℚ) = 0 := by
    unfold Double.roundHalfEven
    rw [hfl]
    norm_num
  unfold Double.round
  rw [if_neg (by positivity), hq, hdiv, hr]
  norm_num

theorem double_round_one (s : Bool) : Double.round s 1 = Double.finite s 1 := by
  simpa using double_round_zpow s 0 (by norm_num) (by norm_num)

theorem double_round_two (s : Bool) : Double.round s 2 = Double.finite s 2 := by
  simpa using double_round_zpow s 1 (by norm_num) (by norm_num)

theorem double_round_three (s : Bool) : Double.round s 3 = Double.finite s 3 := by
  have h := double_round_representable s 3 0 (by norm_num) (by norm_num) (by norm_num) (by
    rw [zpow_zero, mul_one]
    exact lt_of_lt_of_le (by norm_num : ((3 : ℕ) : ℚ) < 2 ^ 2)
      (pow_le_pow_right₀ (by norm_num) (by norm_num)))
  simpa using h

theorem double_round_four (s : Bool) : Double.round s 4 = Double.finite s 4 := by
  have h := double_round_zpow s 2 (by norm_num) (by norm_num)
  norm_num at h
  exact h

theorem double_round_half (s : Bool) : Double.round s (1 / 2) = Double.finite s (1 / 2) := by
  simpa using double_round_half_pow s 1 (by norm_num)

theorem double_round_quarter (s : Bool) : Double.round s (1 / 4) = Double.finite s (1 / 4) := by
  have h := double_round_half_pow s 2 (by norm_num)
  norm_num at h
  exact h

theorem double_round_eighth (s : Bool) : Double.round s (1 / 8) = Double.finite s (1 / 8) := by
  have h := double_round_half_pow s 3 (by norm_num)
  norm_num at h
  exact h

theorem double_round_zero (s : Bool) : Double.round s 0 = Double.finite s 0 := by
  simp [Double.round]

theorem double_zero : (0 : Double) = Double.finite false 0 := by
  show Double.round false ((0 : ℕ) : ℚ) = _
  rw [Nat.cast_zero, double_round_zero]

theorem double_one : (1 : Double) = Double.finite false 1 := by
  show Double.round false ((1 : ℕ) : ℚ) = _
  rw [Nat.cast_one, double_round_one]

theorem double_two : (2 : Double) = Double.finite false 2 := by
  show Double.round false ((2 : ℕ) : ℚ) = _
  rw [Nat.cast_ofNat, double_round_two]

theorem double_neg_one : (-1 : Double) = Double.finite true 1 := by
  show Double.neg 1 = _
  rw [double_one]
  rfl

theorem ofRat_half : Double.ofRat (1 / 2) = Double.finite false (1 / 2) := by
  unfold Double.ofRat
  rw [abs_of_pos (by norm_num), double_round_half]
  norm_num

theorem ofRat_eighth : Double.ofRat (1 / 8) = Double.finite false (1 / 8) := by
  unfold Double.ofRat
  rw [abs_of_pos (by norm_num), double_round_eighth]
  norm_num

theorem double_add_finite (s t : Bool) (a b : ℚ) :
    Double.finite s a + Double.finite t b =
      if Double.signed s a + Double.signed t b = 0 then Double.finite (s && t) 0
      else Double.round (decide (Double.signed s a + Double.signed t b < 0))
        |Double.signed s a + Double.signed t b| := rfl

theorem double_sub_finite (s t : Bool) (a b : ℚ) :
    Double.finite s a - Double.finite t b = Double.finite s a + Double.finite (!t) b := rfl

theorem double_mul_finite (s t : Bool) (a b : ℚ) :
    Double.finite s a * Double.finite t b = Double.round (xor s t) (a * b) := rfl

theorem double_div_finite (s t : Bool) (a b : ℚ) :
    Double.finite s a / Double.finite t b =
      if b = 0 then (if a = 0 then Double.nan else Double.infinite (xor s t))
      else Double.round (xor s t) (a / b) := rfl

theorem double_neg_finite (s : Bool) (a : ℚ) : -Double.finite s a = Double.finite (!s) a := rfl

/-- Addition of two positive finite values whose exact sum is representable. -/
theorem double_add_pos_finite (a b : ℚ) (ha : 0 ≤ a) (hb : 0 < b)
    (hr : Double.round false (a + b) = Double.finite false (a + b)) :
    Double.finite false a + Double.finite false b = Double.finite false (a + b) := by
  have hpos : 0 < a + b := by linarith
  rw [double_add_finite]
  simp only [Double.signed, Bool.false_eq_true, if_false]
  rw [if_neg hpos.ne', abs_of_pos hpos, decide_eq_false (not_lt.mpr hpos.le), hr]

/-- In the underflow run `uv = U[0]·S[0] = 1*1 + (-1)*1 = +0`. -/
theorem halving_dot :
    dotProduct_f64 (halvingU 0) (halvingS 0) 2 = Double.finite false 0 := by
  simp only [dotProduct_f64, forLoop, halvingU, halvingS, if_true,
    one_ne_zero, if_false, double_zero, double_one, double_neg_finite]
  norm_num [double_mul_finite, double_add_finite, Double.signed, double_round_one, double_round_zero]

/-- In the underflow run `pValue = sigmoid(+0) = 1 / (1 + exp(-0)) = 0.5`. -/
theorem halving_sigmoid (exp : Double → Double) (he1 : exp (Double.finite true 0) = 1) :
    sigmoid_f64 exp (Double.finite false 0) = Double.finite false (1 / 2) := by
  simp only [sigmoid_f64, double_neg_finite, Bool.not_false, he1, double_one]
  norm_num [double_add_finite, double_div_finite, Double.signed, double_round_two, double_round_half]

/-- In the underflow run `grad_sigmoid(+0) = 1 / (2 + 1 + 1) = 0.25`. -/
theorem halving_grad_sigmoid (exp : Double → Double) (he1 : exp (Double.finite true 0) = 1)
    (he2 : exp (Double.finite false 0) = 1) :
    grad_sigmoid_f64 exp (Double.finite false 0) = Double.finite false (1 / 4) := by
  simp only [grad_sigmoid_f64, double_neg_finite, Bool.not_false, he1, he2, double_one, double_two]
  norm_num [double_add_finite, double_div_finite, Double.signed, double_round_three, double_round_four, double_round_quarter]

/-- In the underflow run `eij = fabs(0.5 - 0.5) / 0.5 = +0`. -/
theorem halving_eij :
    eij_f64 (Double.finite false (1 / 2)) (Double.finite false (1 / 2)) = Double.finite false 0 := by
  simp only [eij_f64, double_sub_finite]
  norm_num [double_add_finite, double_div_finite, Double.signed, Double.fabs, double_round_zero]

/-- Two equal confidence values `2 ^ (-n)`, `n ≤ 1074`, give `wi = wj = 0.5` exactly. -/
theorem halving_weights (n : ℕ) (hn : n ≤ 1074) :
    wi_f64 (Double.finite false ((1 / 2) ^ n)) (Double.finite false ((1 / 2) ^ n)) =
      Double.finite false (1 / 2) ∧
    wj_f64 (Double.finite false ((1 / 2) ^ n)) (Double.finite false ((1 / 2) ^ n)) =
      Double.finite false (1 / 2) := by
  have hc : (0 : ℚ) < (1 / 2) ^ n := by positivity
  have hsum : Double.finite false ((1 / 2 : ℚ) ^ n) + Double.finite false ((1 / 2) ^ n) =
      Double.finite false ((1 / 2) ^ n + (1 / 2) ^ n) := by
    refine double_add_pos_finite _ _ hc.le hc ?_
    rw [← two_mul]
    exact double_round_two_mul_half_pow false n hn
  have hq : (1 / 2 : ℚ) ^ n / ((1 / 2) ^ n + (1 / 2) ^ n) = 1 / 2 := by
    field_simp
    ring
  have hdiv : Double.finite false ((1 / 2 : ℚ) ^ n) / Double.finite false ((1 / 2) ^ n + (1 / 2) ^ n) =
      Double.finite false (1 / 2) := by
    rw [double_div_finite, if_neg (by positivity), hq, double_round_half]
    rfl
  unfold wi_f64 wj_f64
  rw [hsum, hdiv]
  exact ⟨rfl, rfl⟩

/-- The confidence assignment of the underflow run halves `2 ^ (-n)`: the result is
`2 ^ (-(n+1))` for `n < 1074`, and `+0` for `n = 1074`. -/
theorem halving_blend (n : ℕ) (hn : n ≤ 1074) :
    (1 : Double) * Double.finite false (1 / 2) * Double.finite false 0
        + (1 - 1 * Double.finite false (1 / 2)) * Double.finite false ((1 / 2) ^ n) =
      if n < 1074 then Double.finite false ((1 / 2) ^ (n + 1)) else Double.finite false 0 := by
  have h1 : (1 : Double) * Double.finite false (1 / 2) = Double.finite false (1 / 2) := by
    rw [double_one, double_mul_finite]
    norm_num [double_round_half]
  have h2 : Double.finite false (1 / 2) * Double.finite false 0 = Double.finite false 0 := by
    rw [double_mul_finite]
    norm_num [double_round_zero]
  have h3 : (1 : Double) - Double.finite false (1 / 2) = Double.finite false (1 / 2) := by
    rw [double_one, double_sub_finite, double_add_finite]
    have habs : |(1 / 2 : ℚ)| = 1 / 2 := abs_of_pos (by norm_num)
    norm_num [Double.signed, double_round_half, habs]
  have h4 : Double.finite false (1 / 2) * Double.finite false ((1 / 2) ^ n) =
      Double.round false ((1 / 2) ^ (n + 1)) := by
    rw [double_mul_finite, pow_succ, mul_comm]
    rfl
  rw [h1, h2, h3, h4]
  by_cases hlt : n < 1074
  · rw [if_pos hlt, double_round_half_pow false (n + 1) (by omega)]
    have h5 := double_add_pos_finite 0 ((1 / 2 : ℚ) ^ (n + 1)) le_rfl (by positivity)
      (by rw [zero_add]; exact double_round_half_pow false (n + 1) (by omega))
    rw [zero_add] at h5
    exact h5
  · have hn' : n = 1074 := by omega
    rw [if_neg hlt, hn', double_round_tie_to_zero, double_add_finite]
    norm_num [Double.signed]

/-- Each gradient of the halving run is `+0`, so the decrement leaves the entry as it is. -/
theorem halving_entry (s t : Bool) :
    Double.finite s 1 - Double.finite false (1 / 8) *
        (Double.finite false (1 / 2) * (Double.finite false (1 / 2) - Double.finite false (1 / 2))
            * Double.finite false (1 / 4) * Double.finite t 1
            / sqr_f64 (Double.finite false (1 / 2))
          + 0 * Double.finite s 1) = Double.finite s 1 := by
  simp only [sqr_f64, double_zero, double_sub_finite]
  cases s <;> cases t <;>
    norm_num [double_mul_finite, double_add_finite, double_sub_finite, double_div_finite, Double.signed, double_round_zero, double_round_one,
      double_round_quarter]

theorem setCell_f64_self (m : Nat → Nat → Double) (i j : Nat) :
    setCell_f64 m i j (m i j) = m := by
  funext a b
  unfold setCell_f64
  split_ifs with h
  · rw [h.1, h.2]
  · rfl

/-- The gradient step of the underflow run writes back the entries it read. -/
theorem halving_gradStep (exp : Double → Double) (he1 : exp (Double.finite true 0) = 1)
    (he2 : exp (Double.finite false 0) = 1) (k : Nat) :
    gradStep_f64 exp 0 (Double.finite false (1 / 8)) (Double.finite false (1 / 2))
        (Double.finite false (1 / 2)) (Double.finite false (1 / 2)) (Double.finite false (1 / 2))
        (Double.finite false 0) 0 0 k (halvingU, halvingS) =
      (halvingU, halvingS) := by
  have hU : halvingU 0 k = Double.finite (decide (k ≠ 0)) 1 := by
    unfold halvingU
    by_cases hk : k = 0
    · simp [hk, double_one]
    · simp [hk, double_one, double_neg_finite]
  have hS : halvingS 0 k = Double.finite false 1 := double_one
  unfold gradStep_f64
  simp only [halving_grad_sigmoid exp he1 he2]
  refine Prod.ext ?_ ?_
  · show setCell_f64 halvingU 0 k _ = halvingU
    conv_rhs => rw [← setCell_f64_self halvingU 0 k]
    refine congrArg (setCell_f64 halvingU 0 k) ?_
    rw [hU, hS]
    exact halving_entry _ _
  · show setCell_f64 halvingS 0 k _ = halvingS
    conv_rhs => rw [← setCell_f64_self halvingS 0 k]
    refine congrArg (setCell_f64 halvingS 0 k) ?_
    rw [hU, hS]
    exact halving_entry _ _

/-- One update of the underflow run, from confidence values `2 ^ (-n)`, `n ≤ 1074`. -/
theorem halving_step (exp : Double → Double) (he1 : exp (Double.finite true 0) = 1)
    (he2 : exp (Double.finite false 0) = 1) (n : ℕ) (hn : n ≤ 1074) (st : State Double)
    (hU : st.U = halvingU) (hS : st.S = halvingS)
    (heu : st.eu 0 = Double.finite false ((1 / 2) ^ n))
    (hes : st.es 0 = Double.finite false ((1 / 2) ^ n)) :
    (sampleStep_f64 exp 2 0 (Double.ofRat (1 / 8)) 1 ⟨0, 0, Double.ofRat (1 / 2)⟩ st).U =
      halvingU ∧
    (sampleStep_f64 exp 2 0 (Double.ofRat (1 / 8)) 1 ⟨0, 0, Double.ofRat (1 / 2)⟩ st).S =
      halvingS ∧
    (sampleStep_f64 exp 2 0 (Double.ofRat (1 / 8)) 1 ⟨0, 0, Double.ofRat (1 / 2)⟩ st).eu 0 =
      (if n < 1074 then Double.finite false ((1 / 2) ^ (n + 1)) else Double.finite false 0) ∧
    (sampleStep_f64 exp 2 0 (Double.ofRat (1 / 8)) 1 ⟨0, 0, Double.ofRat (1 / 2)⟩ st).es 0 =
      (if n < 1074 then Double.finite false ((1 / 2) ^ (n + 1)) else Double.finite false 0) := by
  obtain ⟨hwi, hwj⟩ := halving_weights n hn
  have hloop : forLoop 2 (gradStep_f64 exp 0 (Double.finite false (1 / 8))
      (Double.finite false (1 / 2)) (Double.finite false (1 / 2)) (Double.finite false (1 / 2))
      (Double.finite false (1 / 2)) (Double.finite false 0) 0 0)
      (halvingU, halvingS) = (halvingU, halvingS) := by
    simp only [forLoop, halving_gradStep exp he1 he2]
  simp only [sampleStep_f64, ofRat_eighth, ofRat_half, hU, hS, halving_dot,
    halving_sigmoid exp he1,
    heu, hes, hwi, hwj, halving_eij, hloop, setEntry_f64, if_true]
  exact ⟨trivial, trivial, halving_blend n hn, halving_blend n hn⟩

/-- After `n ≤ 1074` updates of the underflow run, `U` and `S` are the initial ones and
`eu[0] = es[0] = 2 ^ (-n)`. -/
theorem halvingRun_invariant (exp : Double → Double) (he1 : exp (Double.finite true 0) = 1)
    (he2 : exp (Double.finite false 0) = 1) (n : ℕ) (hn : n ≤ 1074) :
    (halvingRun exp n).U = halvingU ∧
    (halvingRun exp n).S = halvingS ∧
    (halvingRun exp n).eu 0 = Double.finite false ((1 / 2) ^ n) ∧
    (halvingRun exp n).es 0 = Double.finite false ((1 / 2) ^ n) := by
  induction n with
  | zero =>
    refine ⟨rfl, rfl, ?_, ?_⟩
    · show (1 : Double) = _
      rw [double_one, pow_zero]
    · show (1 : Double) = _
      rw [double_one, pow_zero]
  | succ n ih =>
    obtain ⟨hU, hS, heu, hes⟩ := ih (by omega)
    have h := halving_step exp he1 he2 n (by omega) (halvingRun exp n) hU hS heu hes
    rw [if_pos (by omega)] at h
    exact h

/-- After 1075 updates of the underflow run, `eu[0] = es[0] = +0`, for every `exp` with
`exp(-0) = exp(+0) = 1`. -/
theorem halvingRun_underflow (exp : Double → Double) (he1 : exp (Double.finite true 0) = 1)
    (he2 : exp (Double.finite false 0) = 1) :
    (halvingRun exp 1075).eu 0 = Double.finite false 0 ∧
    (halvingRun exp 1075).es 0 = Double.finite false 0 := by
  obtain ⟨hU, hS, heu, hes⟩ := halvingRun_invariant exp he1 he2 1074 le_rfl
  have h := halving_step exp he1 he2 1074 le_rfl (halvingRun exp 1074) hU hS heu hes
  rw [if_neg (by omega)] at h
  exact ⟨h.2.2.1, h.2.2.2⟩

/-- C13 (as stated, refuted): in IEEE-754 double arithmetic, with `beta = 1`, the positive
observed value `0.5`, `lmda = 0`, `dim = 2`, `U[0] = [1, -1]`, `S[0] = [1, 1]` and all-ones
confidence vectors, 1075 per-sample updates leave `eu[0] = es[0] = +0`: the entries are not
strictly positive, `eu[0] + es[0]` is zero, and the weights `wi`, `wj` that the next update
computes are NaN. -/
theorem confidence_underflow_counterexample :
    Double.lt 0 (Double.ofRat (1 / 2)) = true ∧
    (halvingRun expAtZero 1075).eu 0 = Double.finite false 0 ∧
    (halvingRun expAtZero 1075).es 0 = Double.finite false 0 ∧
    Double.lt 0 ((halvingRun expAtZero 1075).eu 0) = false ∧
    Double.lt 0 ((halvingRun expAtZero 1075).es 0) = false ∧
    (halvingRun expAtZero 1075).eu 0 + (halvingRun expAtZero 1075).es 0 = Double.finite false 0 ∧
    wi_f64 ((halvingRun expAtZero 1075).eu 0) ((halvingRun expAtZero 1075).es 0) = Double.nan ∧
    wj_f64 ((halvingRun expAtZero 1075).eu 0) ((halvingRun expAtZero 1075).es 0) = Double.nan := by
  have he1 : expAtZero (Double.finite true 0) = 1 := by simp [expAtZero]
  have he2 : expAtZero (Double.finite false 0) = 1 := by simp [expAtZero]
  obtain ⟨heu, hes⟩ := halvingRun_underflow expAtZero he1 he2
  rw [heu, hes]
  have hsum : Double.finite false 0 + Double.finite false 0 = Double.finite false 0 := by
    rw [double_add_finite]
    norm_num [Double.signed]
  refine ⟨?_, rfl, rfl, ?_, ?_, hsum, ?_, ?_⟩
  · rw [ofRat_half, double_zero]
    simp [Double.lt, Double.signed]
  · rw [double_zero]
    simp [Double.lt, Double.signed]
  · rw [double_zero]
    simp [Double.lt, Double.signed]
  · unfold wi_f64
    rw [hsum, double_div_finite]
    simp
  · unfold wj_f64
    rw [hsum, double_div_finite]
    simp

end Theorems

end AdaptiveMF
